import Mathlib

/-!
# Verification of `folder_synchronizer` (src/src/synchronizer.py)

Shallow embedding of the `FolderSynchronizer` class.  The filesystem is
modelled as a flat, finite association list from relative paths (lists of
path components) to entry data (a regular file with content bytes and an
mtime, or a directory).  This is the standard flat view of a directory
tree; well-formedness (`FSWf`) requires unique paths and parent closure,
which every real tree satisfies.  The code's slash-joined relative path
strings correspond to component lists via `pathStr`; all string-level
operations of the code (`should_ignore`, log messages, cache keys) are
applied to `pathStr` images.

`os.walk(root)` (used by `get_all_items`) with `topdown=True` and pruning
of `dirnames` visits a directory iff all of its ancestors were visited and
it was not pruned; `get_all_items` prunes exactly the subdirectories whose
relative path satisfies `should_ignore`, records every visited non-root
directory, and records a visited file unless `should_ignore` holds for it.
Consequently an entry is emitted iff every nonempty prefix of its path
(itself included) fails `should_ignore` (`scanOk`).  `os.walk` ignores
scandir errors (default `onerror=None`), so a nonexistent or unreadable
root produces no triples at all; the root argument is therefore an
`Option`, with `none` for a missing/unreadable root.

File mtimes are modelled as rationals (Python floats are binary rationals;
no claim depends on rounding).  MD5 (`hashlib`, library code) and the JSON
serialization of the cache (`json.dump`, library code) are abstracted as
parameters of `SyncEnv`.
-/

instance {ε α : Type} [DecidableEq ε] [DecidableEq α] : DecidableEq (Except ε α) := fun a b =>
  match a, b with
  | .ok x, .ok y =>
    if h : x = y then .isTrue (by rw [h]) else .isFalse (fun hh => h (Except.ok.inj hh))
  | .error x, .error y =>
    if h : x = y then .isTrue (by rw [h]) else .isFalse (fun hh => h (Except.error.inj hh))
  | .ok _, .error _ => .isFalse Except.noConfusion
  | .error _, .ok _ => .isFalse Except.noConfusion

abbrev Name := String

/-- A relative path as a list of components; `[]` is the tree root. -/
abbrev RelPath := List Name

/-- Data stored at a path: a regular file (content bytes, mtime) or a directory. -/
inductive EntryData where
  | file (content : List Nat) (mtime : ℚ)
  | dir
deriving DecidableEq, Repr, Inhabited

/-- A directory tree, flattened: the entries strictly below the (implicit) root. -/
structure FS where
  entries : List (RelPath × EntryData)
deriving DecidableEq, Repr, Inhabited

/-- First-match lookup in an entry list (the flat model of path resolution). -/
def lookupEntries : List (RelPath × EntryData) → RelPath → Option EntryData
  | [], _ => none
  | e :: rest, p => if e.1 = p then some e.2 else lookupEntries rest p

/-- Resolve a relative path; the root `[]` is always an existing directory. -/
def fsLookup (fs : FS) (p : RelPath) : Option EntryData :=
  if p = [] then some .dir else lookupEntries fs.entries p

/-- `os.path.isdir` on a path inside the tree. -/
def isDirAt (fs : FS) (p : RelPath) : Bool :=
  fsLookup fs p == some .dir

/-- `os.path.isfile` on a path inside the tree. -/
def isFileAt (fs : FS) (p : RelPath) : Bool :=
  match fsLookup fs p with
  | some (.file _ _) => true
  | _ => false

/-- `os.path.exists` on a path inside the tree. -/
def existsAt (fs : FS) (p : RelPath) : Bool :=
  (fsLookup fs p).isSome

/-- Overwrite-or-insert an entry (the effect of writing a file / creating a dir). -/
def fsSet (fs : FS) (p : RelPath) (e : EntryData) : FS :=
  if (lookupEntries fs.entries p).isSome then
    ⟨fs.entries.map (fun q => if q.1 = p then (p, e) else q)⟩
  else
    ⟨fs.entries ++ [(p, e)]⟩

/-- `shutil.rmtree`: delete a path and everything below it. -/
def fsRemoveTree (fs : FS) (p : RelPath) : FS :=
  ⟨fs.entries.filter (fun q => !(p.isPrefixOf q.1))⟩

/-- `os.remove`: delete a single (file) entry. -/
def fsRemoveFile (fs : FS) (p : RelPath) : FS :=
  ⟨fs.entries.filter (fun q => !(q.1 == p))⟩

/-- Well-formedness of a tree: keys are unique, the root is implicit (no `[]`
key), and every proper nonempty prefix of an entry is a directory entry
(parent closure).  Every real directory tree satisfies this. -/
def FSWf (fs : FS) : Prop :=
  (fs.entries.map Prod.fst).Nodup ∧
  (∀ e ∈ fs.entries, e.1 ≠ []) ∧
  (∀ e ∈ fs.entries, ∀ q ∈ e.1.inits, q ≠ [] → q ≠ e.1 → (q, EntryData.dir) ∈ fs.entries)

instance (fs : FS) : Decidable (FSWf fs) := by
  unfold FSWf
  infer_instance

/-- Slash-join of path components, as produced by `os.path.join`/`replace`. -/
def pathStr (p : RelPath) : String :=
  String.intercalate "/" p

/-- `os.path.join(root, rel)` for a nonempty relative path. -/
def osJoin (root : String) (rel : RelPath) : String :=
  root ++ "/" ++ pathStr rel

/-- Python `s.replace("\\", "/")`: map every backslash code point to a slash
(the pattern is a single character, so `str.replace` acts pointwise). -/
def pyNormSlashes (s : String) : String :=
  String.mk (s.data.map (fun c => if c = '\\' then '/' else c))

/-- Python `s.startswith(pre)` (code-point semantics). -/
def pyStartsWith (s pre : String) : Bool :=
  pre.data.isPrefixOf s.data

/-- Python `s.endswith(post)` (code-point semantics). -/
def pyEndsWith (s post : String) : Bool :=
  post.data.isSuffixOf s.data

/-- Python `c in s` for a single character. -/
def pyContainsChar (s : String) (c : Char) : Bool :=
  s.data.contains c

/-- Python `s[:-1]` (code-point semantics). -/
def pyDropLast (s : String) : String :=
  String.mk s.data.dropLast

/-- Python `s[1:]` / the tail of `s.split("*", 1)` when `s` starts with `*`. -/
def pyDropFirst (s : String) : String :=
  String.mk (s.data.drop 1)

/-- `FolderSynchronizer.match_pattern` (synchronizer.py lines 102-126).
Checks if `path` matches `pattern`: a trailing-slash pattern matches by
`startswith(pattern[:-1])`; a leading-star pattern matches by
`endswith(ext)` where `ext` is everything after the first star; a pattern
with a star elsewhere matches nothing; any other pattern matches by string
equality. -/
def match_pattern (path pattern : String) : Bool :=
  let path := pyNormSlashes path
  let pattern := pyNormSlashes pattern
  if pyEndsWith pattern "/" then
    pyStartsWith path (pyDropLast pattern)
  else if pyContainsChar pattern '*' then
    if pyStartsWith pattern "*" then
      pyEndsWith path (pyDropFirst pattern)
    else
      false
  else
    path == pattern

/-- `FolderSynchronizer.should_ignore`: true iff any ignore pattern matches. -/
def should_ignore (ignore_patterns : List String) (path : String) : Bool :=
  ignore_patterns.any (fun pattern => match_pattern path pattern)

/-- A path is reached and emitted by the `os.walk` scan iff no nonempty
prefix of it (itself included) is ignored: `get_all_items` prunes ignored
directories before descending and filters ignored files. -/
def scanOk (ignore_patterns : List String) (p : RelPath) : Bool :=
  p.inits.all (fun q => q.isEmpty || !(should_ignore ignore_patterns (pathStr q)))

/-- `FolderSynchronizer.get_all_items` (synchronizer.py lines 70-91): scan a
root, returning relative file paths and relative directory paths.  `none`
models a nonexistent or unreadable root, for which `os.walk` silently
yields nothing. -/
def get_all_items (ignore_patterns : List String) (root : Option FS) :
    List RelPath × List RelPath :=
  match root with
  | none => ([], [])
  | some fs =>
    (fs.entries.filterMap (fun e =>
        match e.2 with
        | .file _ _ => if scanOk ignore_patterns e.1 then some e.1 else none
        | .dir => none),
     fs.entries.filterMap (fun e =>
        match e.2 with
        | .dir => if scanOk ignore_patterns e.1 then some e.1 else none
        | .file _ _ => none))

/-- Configuration of a `FolderSynchronizer` (constructor parameters). -/
structure SyncConfig where
  use_md5 : Bool
  use_hash_cache : Bool
  ignore_patterns : List String
  dry_run : Bool
  max_retries : Nat
deriving DecidableEq, Repr

/-- External collaborators abstracted as parameters: the MD5 digest of a byte
sequence (`hashlib`), the JSON serialization of the cache (`json.dump`), and
the current time (mtime given to the cache file written at flush). -/
structure SyncEnv where
  hashFn : List Nat → String
  cacheBytes : List (String × String) → List Nat
  now : ℚ

/-- The in-memory hash cache `self.hash_cache`: a dict from identity-key
strings to digest strings, modelled as an association list. -/
abbrev HashCache := List (String × String)

/-- Python dict assignment `cache[key] = val`. -/
def cacheInsert (cache : HashCache) (key val : String) : HashCache :=
  if (cache.lookup key).isSome then
    cache.map (fun kv => if kv.1 = key then (key, val) else kv)
  else
    cache ++ [(key, val)]

/-- Python `int()` applied to a rational: truncation toward zero, computed on
the reduced numerator and denominator. -/
def pyInt (q : ℚ) : ℤ :=
  q.num.tdiv q.den

/-- Difference of two rationals, computed on numerators and denominators
(kernel-executable form of `a - b`; see `pySub_eq`). -/
def pySub (a b : ℚ) : ℚ :=
  mkRat (a.num * b.den - b.num * a.den) (a.den * b.den)

/-- Python `abs(a - b)` (kernel-executable form of `|a - b|`; see
`pyAbsDiff_eq`). -/
def pyAbsDiff (a b : ℚ) : ℚ :=
  if a < b then pySub b a else pySub a b

/-- `os.stat(...).st_size`.  The size of a regular file is its byte count; the
stat fields of a directory are environment-dependent (no claim depends on
them) and are given fixed representative values. -/
def statSize : EntryData → Nat
  | .file content _ => content.length
  | .dir => 4096

/-- `os.stat(...).st_mtime`. -/
def statMtime : EntryData → ℚ
  | .file _ mtime => mtime
  | .dir => 0

/-- The identity-key string built in `FolderSynchronizer.md5`
(`f"{file_path}-{stat.st_size}-{int(stat.st_mtime)}"`). -/
def identityKey (file_path : String) (size : Nat) (mtime : ℚ) : String :=
  file_path ++ "-" ++ toString size ++ "-" ++ toString (pyInt mtime)

/-- Result of one `md5` call: the digest or a raised exception, the updated
cache, and whether the file's bytes were read. -/
structure Md5Out where
  result : Except String String
  cache : HashCache
  readBytes : Bool
deriving DecidableEq, Repr

/-- `FolderSynchronizer.md5` (synchronizer.py lines 128-151).  Missing file:
returns `""`.  Cache enabled and identity key present: returns the cached
digest without reading bytes.  Otherwise the content is read and hashed
(opening a directory for reading raises `IsADirectoryError`), and the digest
is stored under the identity key when caching is enabled. -/
def md5 (use_hash_cache : Bool) (env : SyncEnv) (cache : HashCache) (fs : FS)
    (rel : RelPath) (root : String) : Md5Out :=
  let file_path := osJoin root rel
  match fsLookup fs rel with
  | none => ⟨.ok "", cache, false⟩
  | some e =>
    let key := identityKey file_path (statSize e) (statMtime e)
    if use_hash_cache ∧ (cache.lookup key).isSome then
      ⟨.ok ((cache.lookup key).getD ""), cache, false⟩
    else
      match e with
      | .dir => ⟨.error "IsADirectoryError", cache, false⟩
      | .file content _ =>
        let hash_val := env.hashFn content
        ⟨.ok hash_val, if use_hash_cache then cacheInsert cache key hash_val else cache, true⟩

/-- `FolderSynchronizer.files_differ` (synchronizer.py lines 153-173).
Missing replica path: differs.  MD5 mode: compare digests (threading the
cache through both `md5` calls).  Metadata mode: differ iff sizes differ or
the absolute mtime difference exceeds 1 second. -/
def files_differ (cfg : SyncConfig) (env : SyncEnv) (cache : HashCache)
    (source replica : FS) (srcRel repRel : RelPath) (srcRoot repRoot : String) :
    Except String Bool × HashCache :=
  if ¬ existsAt replica repRel then
    (.ok true, cache)
  else if cfg.use_md5 then
    let srcOut := md5 cfg.use_hash_cache env cache source srcRel srcRoot
    match srcOut.result with
    | .error e => (.error e, srcOut.cache)
    | .ok source_hash =>
      let repOut := md5 cfg.use_hash_cache env srcOut.cache replica repRel repRoot
      match repOut.result with
      | .error e => (.error e, repOut.cache)
      | .ok replica_hash => (.ok (source_hash ≠ replica_hash), repOut.cache)
  else
    match fsLookup source srcRel, fsLookup replica repRel with
    | some se, some re =>
      if statSize se ≠ statSize re then (.ok true, cache)
      else if 1 < pyAbsDiff (statMtime se) (statMtime re) then (.ok true, cache)
      else (.ok false, cache)
    | none, _ => (.error "FileNotFoundError", cache)
    | _, none => (.error "FileNotFoundError", cache)

/-- One observational log or timing event emitted during a pass. -/
inductive SyncEvent where
  | copyDir (dst : String)
  | copyFile (dst : String)
  | removed (path : String)
  | retryWarn (opName : String) (attempt maxAttempts : Nat)
  | sleep (seconds : Nat)
  | permFail (opName : String)
deriving DecidableEq, Repr

/-- Result of `_retry_operation`: number of invocations of the operation,
whether one of them succeeded, and the emitted warn/sleep/error events. -/
structure RetryOut where
  invocations : Nat
  success : Bool
  events : List SyncEvent
deriving DecidableEq, Repr

/-- Loop body of `_retry_operation`: `fuel` remaining iterations, `i` the
zero-based index of the next attempt, `total` the configured bound.  Each
failed attempt logs a warning and sleeps one second; exhausting the loop
logs a permanent failure. -/
def retryAux (opName : String) (op : Nat → Bool) (total : Nat) :
    Nat → Nat → RetryOut
  | _, 0 => ⟨0, false, [.permFail opName]⟩
  | i, fuel + 1 =>
    if op i then
      ⟨1, true, []⟩
    else
      let rest := retryAux opName op total (i + 1) fuel
      ⟨rest.invocations + 1, rest.success,
        .retryWarn opName (i + 1) total :: .sleep 1 :: rest.events⟩

/-- `FolderSynchronizer._retry_operation` (synchronizer.py lines 202-216),
with the success/failure of the wrapped operation at each attempt supplied
by `op`.  Always returns normally (every exception is caught). -/
def retry_operation (maxRetries : Nat) (opName : String) (op : Nat → Bool) : RetryOut :=
  retryAux opName op maxRetries 0 maxRetries

/-- `os.makedirs(p)` (with default `exist_ok=False`): create every missing
nonempty prefix of `p` as a directory.  Raises (returns `none`) if a prefix
is an existing regular file, or if `p` itself already exists; no entry is
created in the failure cases that arise here. -/
def fsMakedirs (fs : FS) (p : RelPath) : Option FS :=
  if p.inits.any (fun q => !q.isEmpty && isFileAt fs q) || existsAt fs p then
    none
  else
    some ⟨fs.entries ++
      (p.inits.filter (fun q => !q.isEmpty && !(existsAt fs q))).map
        (fun q => (q, EntryData.dir))⟩

/-- `FolderSynchronizer.ensure_dir_exists` (synchronizer.py lines 66-68).
Calls `os.makedirs` when the path does not exist and dry-run is off; a
`makedirs` exception propagates (it is not retried or caught). -/
def ensure_dir_exists (dry_run : Bool) (fs : FS) (p : RelPath) : Except String FS :=
  if ¬ existsAt fs p ∧ ¬ dry_run then
    match fsMakedirs fs p with
    | none => .error "makedirs"
    | some fs' => .ok fs'
  else
    .ok fs

/-- `shutil.copy2(src, dst)`: copy content and metadata (mtime).  If `dst`
is an existing directory the copy goes to `dst/basename(src)`.  Fails
(returns `none`) if the source file is missing, the destination's parent is
not a directory, or the final destination is itself a directory. -/
def copy2 (source replica : FS) (srcRel dstRel : RelPath) : Option FS :=
  match fsLookup source srcRel with
  | some (.file content mtime) =>
    let target := if isDirAt replica dstRel then dstRel ++ [srcRel.getLastD ""] else dstRel
    if isDirAt replica target.dropLast ∧ ¬ isDirAt replica target then
      some (fsSet replica target (.file content mtime))
    else
      none
  | _ => none

/-- Mutable state threaded through one pass: the replica tree, the in-memory
hash cache, the log events emitted so far, and (bookkeeping for the claims)
the items the update loop has copied. -/
structure SyncState where
  replica : FS
  cache : HashCache
  events : List SyncEvent
  updated : List RelPath
deriving DecidableEq, Repr

/-- State after a step, plus the exception aborting the pass, if one was
raised (only `ensure_dir_exists`/`md5` can raise out of a step; copy and
remove failures are caught by `_retry_operation`). -/
structure SyncOutcome where
  state : SyncState
  exc : Option String
deriving DecidableEq, Repr

/-- `FolderSynchronizer.copy_item` (synchronizer.py lines 175-188).  A source
directory is created via `ensure_dir_exists`; a source file is copied with
`shutil.copy2` under `_retry_operation` after ensuring its parent directory.
The info event is logged even when every copy attempt failed. -/
def copy_item (cfg : SyncConfig) (source : FS) (srcRoot repRoot : String)
    (st : SyncState) (rel : RelPath) : SyncOutcome :=
  let dst_path := osJoin repRoot rel
  if isDirAt source rel then
    match ensure_dir_exists cfg.dry_run st.replica rel with
    | .error e => ⟨st, some e⟩
    | .ok replica' =>
      ⟨{ st with replica := replica', events := st.events ++ [.copyDir dst_path] }, none⟩
  else
    match ensure_dir_exists cfg.dry_run st.replica rel.dropLast with
    | .error e => ⟨st, some e⟩
    | .ok replica' =>
      if cfg.dry_run then
        ⟨{ st with replica := replica', events := st.events ++ [.copyFile dst_path] }, none⟩
      else
        let attempt := copy2 source replica' rel rel
        let res := retry_operation cfg.max_retries "copy2" (fun _ => attempt.isSome)
        let replicaDone := if res.success then attempt.getD replica' else replica'
        let evts := st.events ++ res.events ++ [.copyFile dst_path]
        ⟨{ st with replica := replicaDone, events := evts }, none⟩

/-- `FolderSynchronizer.remove_item` (synchronizer.py lines 190-200).  A
directory is removed recursively with `shutil.rmtree`, anything else with
`os.remove` (which fails when the entry is already gone), both under
`_retry_operation`; the info event is logged unconditionally.  Symbolic
links are outside the model (spec non-goal). -/
def remove_item (cfg : SyncConfig) (repRoot : String) (st : SyncState) (rel : RelPath) :
    SyncOutcome :=
  let path := osJoin repRoot rel
  if cfg.dry_run then
    ⟨{ st with events := st.events ++ [.removed path] }, none⟩
  else if isDirAt st.replica rel then
    let res := retry_operation cfg.max_retries "rmtree" (fun _ => true)
    let replica' := if res.success then fsRemoveTree st.replica rel else st.replica
    ⟨{ st with replica := replica', events := st.events ++ res.events ++ [.removed path] }, none⟩
  else
    let ok := isFileAt st.replica rel
    let res := retry_operation cfg.max_retries "remove" (fun _ => ok)
    let replica' := if res.success then fsRemoveFile st.replica rel else st.replica
    ⟨{ st with replica := replica', events := st.events ++ res.events ++ [.removed path] }, none⟩

/-- Body of the third loop of `synchronize` (lines 254-260): an item present
on both sides is copied when the source side is a regular file and
`files_differ` holds. -/
def update_step (cfg : SyncConfig) (env : SyncEnv) (source : FS) (srcRoot repRoot : String)
    (st : SyncState) (rel : RelPath) : SyncOutcome :=
  if isFileAt source rel then
    match files_differ cfg env st.cache source st.replica rel rel srcRoot repRoot with
    | (.error e, cache') => ⟨{ st with cache := cache' }, some e⟩
    | (.ok true, cache') =>
      copy_item cfg source srcRoot repRoot
        { st with cache := cache', updated := st.updated ++ [rel] } rel
    | (.ok false, cache') => ⟨{ st with cache := cache' }, none⟩
  else
    ⟨st, none⟩

/-- Run one loop of `synchronize` over a list of items; an exception raised
by a step aborts the remainder of the pass. -/
def runItems (f : SyncState → RelPath → SyncOutcome) : SyncState → List RelPath → SyncOutcome
  | st, [] => ⟨st, none⟩
  | st, rel :: rest =>
    let o := f st rel
    match o.exc with
    | some _ => o
    | none => runItems f o.state rest

/-- Relative path of the persistent cache file `hash_cache.json`, created
inside the replica root (synchronizer.py line 58). -/
def hash_cache_rel : RelPath := ["hash_cache.json"]

/-- Result of one `synchronize` call: the computed plan, the final state and
the exception that aborted the pass, if any. -/
structure SyncResult where
  to_add : List RelPath
  to_remove : List RelPath
  in_both : List RelPath
  state : SyncState
  exc : Option String
deriving Repr

/-- `FolderSynchronizer.synchronize` (synchronizer.py lines 218-265): scan
both roots, compute `to_add`/`to_remove`/`in_both` by set algebra on the
unions of files and directories, then run the three loops in program order
(add, remove, update) and finally write the hash cache file when caching is
enabled and dry-run is off. -/
def synchronize (cfg : SyncConfig) (env : SyncEnv) (srcRoot repRoot : String)
    (source : FS) (st0 : SyncState) : SyncResult :=
  let sfd := get_all_items cfg.ignore_patterns (some source)
  let rfd := get_all_items cfg.ignore_patterns (some st0.replica)
  let source_all := sfd.1 ++ sfd.2
  let replica_all := rfd.1 ++ rfd.2
  let to_add := source_all.filter (fun p => !(replica_all.contains p))
  let to_remove := replica_all.filter (fun p => !(source_all.contains p))
  let in_both := source_all.filter (fun p => replica_all.contains p)
  let o1 := runItems (copy_item cfg source srcRoot repRoot) st0 to_add
  let o2 :=
    match o1.exc with
    | some _ => o1
    | none => runItems (remove_item cfg repRoot) o1.state to_remove
  let o3 :=
    match o2.exc with
    | some _ => o2
    | none => runItems (update_step cfg env source srcRoot repRoot) o2.state in_both
  let final :=
    if o3.exc = none ∧ cfg.use_hash_cache ∧ ¬ cfg.dry_run then
      let cacheFile := EntryData.file (env.cacheBytes o3.state.cache) env.now
      { o3.state with replica := fsSet o3.state.replica hash_cache_rel cacheFile }
    else
      o3.state
  ⟨to_add, to_remove, in_both, final, o3.exc⟩

/-! ## Derived notions used to state the claims -/

/-- No path is a regular file on one side and a directory on the other
(entries present in both trees agree on their kind).  Arbitrary real trees
can violate this; several claims hold only without such kind conflicts. -/
def ConflictFree (a b : FS) : Prop :=
  ∀ e ∈ a.entries, ∀ e' ∈ b.entries,
    e.1 = e'.1 → (e.2 = EntryData.dir ↔ e'.2 = EntryData.dir)

instance (a b : FS) : Decidable (ConflictFree a b) := by
  unfold ConflictFree
  infer_instance

/-- The single log event `copy_item` emits for an item: a directory-created
event when the source side is a directory, a file-copied event otherwise. -/
def copyEventOf (source : FS) (repRoot : String) (rel : RelPath) : SyncEvent :=
  if isDirAt source rel then SyncEvent.copyDir (osJoin repRoot rel)
  else SyncEvent.copyFile (osJoin repRoot rel)

/-- Copy-kind log events (the `logger.info` lines of `copy_item`). -/
def isCopyEvent : SyncEvent → Bool
  | SyncEvent.copyDir _ => true
  | SyncEvent.copyFile _ => true
  | _ => false

/-- Remove-kind log events (the `logger.info` line of `remove_item`). -/
def isRemoveEvent : SyncEvent → Bool
  | SyncEvent.removed _ => true
  | _ => false

/-- Retry noise: warnings, sleeps and permanent-failure logs emitted by
`_retry_operation`. -/
def isNoiseEvent : SyncEvent → Bool
  | SyncEvent.retryWarn _ _ _ => true
  | SyncEvent.sleep _ => true
  | SyncEvent.permFail _ => true
  | _ => false

/-- The copy/remove log events of a pass (what C9 compares between a dry and
a live run). -/
def isInfoEvent (e : SyncEvent) : Bool :=
  isCopyEvent e || isRemoveEvent e

/-- Value of one `md5` call as a function of the entry alone (no cache):
the digest outcome and whether the file bytes are read. -/
def md5_pure (env : SyncEnv) (e : Option EntryData) : Except String String × Bool :=
  match e with
  | none => (Except.ok "", false)
  | some EntryData.dir => (Except.error "IsADirectoryError", false)
  | some (EntryData.file c _) => (Except.ok (env.hashFn c), true)

/-- Value of `files_differ` as a function of the two entries alone, valid
whenever hash caching is disabled (`files_differ_eq_pure`). -/
def files_differ_pure (use_md5 : Bool) (env : SyncEnv) (se re : Option EntryData) :
    Except String Bool :=
  match re with
  | none => Except.ok true
  | some re' =>
    if use_md5 then
      match (md5_pure env se).1 with
      | Except.error e => Except.error e
      | Except.ok h1 =>
        match (md5_pure env (some re')).1 with
        | Except.error e => Except.error e
        | Except.ok h2 => Except.ok (decide (h1 ≠ h2))
    else
      match se with
      | some s =>
        if statSize s ≠ statSize re' then Except.ok true
        else if 1 < pyAbsDiff (statMtime s) (statMtime re') then Except.ok true
        else Except.ok false
      | none => Except.error "FileNotFoundError"

/-- Whether the update loop copies item `p`: the source side is a regular
file and `files_differ` holds.  With caching disabled this depends only on
the two entries at `p`, so it can be stated against the scan-time states. -/
def update_decision (cfg : SyncConfig) (env : SyncEnv) (cache : HashCache)
    (source replica : FS) (srcRoot repRoot : String) (p : RelPath) : Bool :=
  isFileAt source p &&
    decide ((files_differ cfg env cache source replica p p srcRoot repRoot).1 = Except.ok true)

/-- The unified listing of one scan (`source_all` / `replica_all` in
`synchronize`): relative file paths followed by relative directory paths. -/
def scanAll (ip : List String) (root : Option FS) : List RelPath :=
  (get_all_items ip root).1 ++ (get_all_items ip root).2

/-- The `to_add` plan of one pass (synchronizer.py line 241). -/
def planAdd (ip : List String) (source replica : FS) : List RelPath :=
  (scanAll ip (some source)).filter (fun p => !((scanAll ip (some replica)).contains p))

/-- The `to_remove` plan of one pass (synchronizer.py line 242). -/
def planRemove (ip : List String) (source replica : FS) : List RelPath :=
  (scanAll ip (some replica)).filter (fun p => !((scanAll ip (some source)).contains p))

/-- The `in_both` plan of one pass (synchronizer.py line 243). -/
def planBoth (ip : List String) (source replica : FS) : List RelPath :=
  (scanAll ip (some source)).filter (fun p => (scanAll ip (some replica)).contains p)

/-- Kind compatibility of a baseline replica tree `B` with the source: a path
present in both is a directory on one side iff it is on the other.  The pass
invariants are stated relative to such a baseline. -/
def KindCompat (B source : FS) : Prop :=
  ∀ q e e', fsLookup B q = some e → lookupEntries source.entries q = some e' →
    (e = EntryData.dir ↔ e' = EntryData.dir)

/-- Invariant threaded through the mutation loops of a pass: each path holds
its value from the baseline tree `B`, or has already been set to its source
entry (a nonempty path the scan of the source reaches). -/
def ReplInv (ip : List String) (source B R : FS) : Prop :=
  ∀ q, fsLookup R q = fsLookup B q ∨
    (q ≠ [] ∧ fsLookup R q = lookupEntries source.entries q ∧
      (lookupEntries source.entries q).isSome = true ∧ scanOk ip q = true)

/-! ## Bridge lemmas for the executable numeric operations -/

/-- `pySub` computes exactly rational subtraction. -/
theorem pySub_eq (a b : ℚ) : pySub a b = a - b :=
  (Rat.sub_def' a b).symm

/-- `pyAbsDiff` computes exactly `|a - b|`. -/
theorem pyAbsDiff_eq (a b : ℚ) : pyAbsDiff a b = |a - b| := by
  rw [pyAbsDiff]
  by_cases h : a < b
  · rw [if_pos h, pySub_eq, abs_sub_comm, abs_of_pos (by linarith)]
  · rw [if_neg h, pySub_eq]
    push_neg at h
    rw [abs_of_nonneg (by linarith)]

/-- On nonnegative rationals (every real mtime), Python `int()` truncation
agrees with the floor. -/
theorem pyInt_eq_floor (q : ℚ) (h : 0 ≤ q) : pyInt q = ⌊q⌋ := by
  rw [pyInt, Rat.floor_def]
  exact Int.tdiv_eq_ediv (Rat.num_nonneg.mpr h) (by positivity)

/-! ## C3, C5: pattern matching and scanning -/

/-- C3: the claim states that a directory rule `"D/"` matches exactly `D`
itself and paths under `D/`, so that `"cached.txt"` is not ignored under the
rule `"cache/"`.  The code instead tests `path.startswith(pattern[:-1])`
(synchronizer.py line 115), so `"cached.txt"` is ignored by `"cache/"` even
though it is neither equal to `"cache"` nor under `"cache/"` — contradicting
both the claim and the method's own docstring ("ignore everything in that
directory"). -/
theorem c3_dir_pattern_code_bug :
    match_pattern "cached.txt" "cache/" = true ∧
    should_ignore ["cache/"] "cached.txt" = true ∧
    ¬ ("cached.txt" = "cache" ∨ pyStartsWith "cached.txt" "cache/" = true) := by
  decide

/-- C5: the claim states an unreadable or nonexistent root makes the scan
fail with a scan error.  The code's `os.walk` (default `onerror=None`)
silently swallows the error, so `get_all_items` returns empty file and
directory sets for any ignore-pattern list — exactly what the claim says
must not happen (a later pass would then delete the whole replica). -/
theorem c5_scan_missing_root_silent (ignore_patterns : List String) :
    get_all_items ignore_patterns none = ([], []) :=
  rfl

/-! ## C6: metadata-mode files_differ -/

/-- C6: in metadata mode (`use_md5 = false`), for a source file,
`files_differ` returns true for a missing replica path, and for an existing
replica file it returns true exactly when the byte sizes differ or the
absolute mtime difference exceeds one second; the cache is never touched. -/
theorem c6_files_differ_metadata (cfg : SyncConfig) (env : SyncEnv) (cache : HashCache)
    (source replica : FS) (srcRel repRel : RelPath) (srcRoot repRoot : String)
    (c : List Nat) (m : ℚ) (hmd5 : cfg.use_md5 = false)
    (hsrc : fsLookup source srcRel = some (EntryData.file c m)) :
    (fsLookup replica repRel = none →
      files_differ cfg env cache source replica srcRel repRel srcRoot repRoot =
        (.ok true, cache)) ∧
    (∀ c' m', fsLookup replica repRel = some (EntryData.file c' m') →
      files_differ cfg env cache source replica srcRel repRel srcRoot repRoot =
        (.ok (decide (c.length ≠ c'.length) || decide (1 < |m - m'|)), cache)) := by
  constructor
  · intro hnone
    rw [files_differ, if_pos]
    simp [existsAt, hnone]
  · intro c' m' hrep
    have hex : existsAt replica repRel = true := by simp [existsAt, hrep]
    rw [files_differ, if_neg (by simp [hex]), if_neg (by simp [hmd5]), hsrc, hrep]
    simp only [statSize, statMtime, pyAbsDiff_eq]
    by_cases hsz : c.length = c'.length
    · rw [if_neg (by simp [hsz])]
      by_cases hmt : 1 < |m - m'|
      · rw [if_pos hmt]
        simp [hsz, hmt]
      · rw [if_neg hmt]
        simp [hsz, hmt]
    · rw [if_pos (by simpa using hsz)]
      simp [hsz]

/-- Witness for C6 at the spec's own numbers: equal-size files with mtimes
0 and 0.5 are not flagged, with mtimes 0 and 2 they are, and a missing
replica file is always flagged. -/
theorem c6_files_differ_metadata_witness :
    (files_differ ⟨false, false, [], false, 3⟩ ⟨fun _ => "", fun _ => [], 0⟩ []
        ⟨[(["f"], EntryData.file [1] 0)]⟩ ⟨[(["f"], EntryData.file [1] (mkRat 1 2))]⟩
        ["f"] ["f"] "/s" "/r" = (.ok false, [])) ∧
    (files_differ ⟨false, false, [], false, 3⟩ ⟨fun _ => "", fun _ => [], 0⟩ []
        ⟨[(["f"], EntryData.file [1] 0)]⟩ ⟨[(["f"], EntryData.file [1] 2)]⟩
        ["f"] ["f"] "/s" "/r" = (.ok true, [])) ∧
    (files_differ ⟨false, false, [], false, 3⟩ ⟨fun _ => "", fun _ => [], 0⟩ []
        ⟨[(["f"], EntryData.file [1] 0)]⟩ ⟨[]⟩ ["f"] ["f"] "/s" "/r" = (.ok true, [])) := by
  have hv : (mkRat 1 2 : ℚ) = 1 / 2 := by
    rw [Rat.mkRat_eq_divInt, Rat.divInt_eq_div]
    norm_num
  refine ⟨?_, ?_, ?_⟩
  · have h := (c6_files_differ_metadata ⟨false, false, [], false, 3⟩
      ⟨fun _ => "", fun _ => [], 0⟩ [] ⟨[(["f"], EntryData.file [1] 0)]⟩
      ⟨[(["f"], EntryData.file [1] (mkRat 1 2))]⟩ ["f"] ["f"] "/s" "/r" [1] 0
      rfl (by decide)).2 [1] (mkRat 1 2) (by decide)
    have habs : ¬ (1 < |(0 : ℚ) - mkRat 1 2|) := by
      rw [hv, zero_sub, abs_neg, abs_of_nonneg (by norm_num)]
      norm_num
    rw [h, decide_eq_false habs]
    simp
  · have h := (c6_files_differ_metadata ⟨false, false, [], false, 3⟩
      ⟨fun _ => "", fun _ => [], 0⟩ [] ⟨[(["f"], EntryData.file [1] 0)]⟩
      ⟨[(["f"], EntryData.file [1] 2)]⟩ ["f"] ["f"] "/s" "/r" [1] 0
      rfl (by decide)).2 [1] 2 (by decide)
    have habs : (1 : ℚ) < |(0 : ℚ) - 2| := by
      rw [zero_sub, abs_neg, abs_of_nonneg (by norm_num)]
      norm_num
    rw [h, decide_eq_true habs]
    simp
  · exact (c6_files_differ_metadata ⟨false, false, [], false, 3⟩
      ⟨fun _ => "", fun _ => [], 0⟩ [] ⟨[(["f"], EntryData.file [1] 0)]⟩
      ⟨[]⟩ ["f"] ["f"] "/s" "/r" [1] 0 rfl (by decide)).1 (by decide)

/-! ## C7: retry bound -/

/-- Trace of `_retry_operation` when every attempt fails: after each of the
`fuel` failing attempts a warning and a one-second sleep are emitted, and
the loop ends with a permanent-failure log. -/
theorem retryAux_all_fail (opName : String) (op : Nat → Bool) (total : Nat) :
    ∀ fuel i, (∀ j, i ≤ j → j < i + fuel → op j = false) →
      retryAux opName op total i fuel =
        ⟨fuel, false,
          ((List.range fuel).flatMap
            (fun k => [SyncEvent.retryWarn opName (i + k + 1) total, SyncEvent.sleep 1])) ++
          [SyncEvent.permFail opName]⟩ := by
  intro fuel
  induction fuel with
  | zero =>
    intro i _
    rfl
  | succ n ih =>
    intro i h
    have hop : op i = false := h i (Nat.le_refl i) (by omega)
    have harith : ∀ k : Nat, i + Nat.succ k + 1 = i + 1 + k + 1 := fun k => by omega
    simp only [retryAux, hop, Bool.false_eq_true, if_false]
    rw [ih (i + 1) (fun j h1 h2 => h j (by omega) (by omega))]
    rw [List.range_succ_eq_map, List.flatMap_cons, List.flatMap_map]
    simp [Function.comp, harith, Nat.add_zero]

/-- C7: an operation that fails on every attempt is invoked exactly
`maxRetries` times — the returned invocation count, which by construction
counts one call of `op` per loop iteration, equals `maxRetries` and the
loop body runs no further iteration — with a warning and a one-second sleep
after each failed attempt (hence a 1-second pause between consecutive
attempts), after which a permanent failure is logged and the call returns
normally (`success = false`, no exception escapes). -/
theorem c7_retry_bound (maxRetries : Nat) (opName : String) (op : Nat → Bool)
    (hfail : ∀ i, i < maxRetries → op i = false) :
    retry_operation maxRetries opName op =
      ⟨maxRetries, false,
        ((List.range maxRetries).flatMap
          (fun k => [SyncEvent.retryWarn opName (k + 1) maxRetries, SyncEvent.sleep 1])) ++
        [SyncEvent.permFail opName]⟩ := by
  rw [retry_operation,
    retryAux_all_fail opName op maxRetries maxRetries 0 (fun j _ h2 => hfail j (by omega))]
  simp only [Nat.zero_add]

/-- Witness for C7 at the default bound 3: exactly three invocations, three
warn/sleep pairs, one permanent failure. -/
theorem c7_retry_bound_witness :
    retry_operation 3 "shutil.copy2" (fun _ => false) =
      ⟨3, false,
        [SyncEvent.retryWarn "shutil.copy2" 1 3, SyncEvent.sleep 1,
         SyncEvent.retryWarn "shutil.copy2" 2 3, SyncEvent.sleep 1,
         SyncEvent.retryWarn "shutil.copy2" 3 3, SyncEvent.sleep 1,
         SyncEvent.permFail "shutil.copy2"]⟩ := by
  rw [c7_retry_bound 3 "shutil.copy2" (fun _ => false) (fun i _ => rfl)]
  decide

/-! ## C8: hash cache behavior -/

/-- C8: with caching enabled, a file whose identity key (absolute path, byte
size, truncated mtime) is present in the cache gets its digest from the
cache without reading the file's bytes and without modifying the cache;
a file whose current identity key is absent (in particular when its size or
truncated mtime changed, which changes the decimal rendering inside the
key) has its digest recomputed from the content and stored under the new
key, and the bytes are read. -/
theorem c8_hash_cache (env : SyncEnv) (cache : HashCache) (fs fs' : FS) (rel : RelPath)
    (root : String) (c c' : List Nat) (m m' : ℚ) (d : String)
    (hfs : fsLookup fs rel = some (EntryData.file c m))
    (hfs' : fsLookup fs' rel = some (EntryData.file c' m'))
    (hhit : cache.lookup (identityKey (osJoin root rel) c.length m) = some d)
    (hmiss : cache.lookup (identityKey (osJoin root rel) c'.length m') = none) :
    md5 true env cache fs rel root = ⟨.ok d, cache, false⟩ ∧
    md5 true env cache fs' rel root =
      ⟨.ok (env.hashFn c'),
       cacheInsert cache (identityKey (osJoin root rel) c'.length m') (env.hashFn c'), true⟩ := by
  constructor
  · rw [md5, hfs]
    simp only [statSize, statMtime]
    rw [if_pos ⟨trivial, by rw [hhit]; rfl⟩, hhit]
    rfl
  · rw [md5, hfs']
    simp only [statSize, statMtime]
    rw [if_neg (by rw [hmiss]; simp)]
    simp

/-- Witness for C8: a concrete two-entry scenario; the second file has the
same path but one more byte, so its identity key concretely misses. -/
theorem c8_hash_cache_witness :
    md5 true ⟨fun cs => "h" ++ toString cs.length, fun _ => [], 0⟩ [("/src/f-1-3", "olddigest")]
        ⟨[(["f"], EntryData.file [7] 3)]⟩ ["f"] "/src" = ⟨.ok "olddigest", [("/src/f-1-3", "olddigest")], false⟩ ∧
    md5 true ⟨fun cs => "h" ++ toString cs.length, fun _ => [], 0⟩ [("/src/f-1-3", "olddigest")]
        ⟨[(["f"], EntryData.file [7, 8] 3)]⟩ ["f"] "/src" =
      ⟨.ok "h2", [("/src/f-1-3", "olddigest"), ("/src/f-2-3", "h2")], true⟩ := by
  have h := c8_hash_cache ⟨fun cs => "h" ++ toString cs.length, fun _ => [], 0⟩
    [("/src/f-1-3", "olddigest")] ⟨[(["f"], EntryData.file [7] 3)]⟩
    ⟨[(["f"], EntryData.file [7, 8] 3)]⟩ ["f"] "/src" [7] [7, 8] 3 3 "olddigest"
    (by decide) (by decide) (by decide) (by decide)
  refine ⟨h.1, ?_⟩
  rw [h.2]
  decide

/-! ## Counterexamples for C1, C2, C4, C9, C10 -/

/-- Counterexample for C1: source holds an (empty) directory `a`, the
replica holds a regular file `a`.  One live pass raises no exception and
performs no action at all (no events, so certainly no I/O failure), yet the
replica still scans as one file and no directory while the source scans as
one directory and no file: the snapshots differ, so convergence for
arbitrary initial replicas fails on file/directory kind conflicts. -/
theorem c1_convergence_counterexample :
    let r := synchronize ⟨false, false, [], false, 3⟩ ⟨fun _ => "", fun _ => [], 0⟩
      "/src" "/rep" ⟨[(["a"], EntryData.dir)]⟩ ⟨⟨[(["a"], EntryData.file [] 0)]⟩, [], [], []⟩
    r.exc = none ∧ r.state.events = [] ∧
    r.state.replica = ⟨[(["a"], EntryData.file [] 0)]⟩ ∧
    (get_all_items [] (some r.state.replica)).1.toFinset ≠
      (get_all_items [] (some ⟨[(["a"], EntryData.dir)]⟩)).1.toFinset := by
  decide

/-- Counterexample for C2: with hash caching enabled and an empty source and
replica, the first pass ends by writing `hash_cache.json` into the replica;
the second pass (no source change) then finds a nonempty `to_remove` and
actually removes that file — the second run's plan is not empty and a
filesystem mutation occurs. -/
theorem c2_idempotence_counterexample :
    let p1 := synchronize ⟨false, true, [], false, 3⟩ ⟨fun _ => "", fun _ => [], 0⟩
      "/src" "/rep" ⟨[]⟩ ⟨⟨[]⟩, [], [], []⟩
    let p2 := synchronize ⟨false, true, [], false, 3⟩ ⟨fun _ => "", fun _ => [], 0⟩
      "/src" "/rep" ⟨[]⟩ ⟨p1.state.replica, p1.state.cache, [], []⟩
    p1.exc = none ∧ p2.exc = none ∧
    p2.to_remove = [["hash_cache.json"]] ∧
    p2.state.events = [SyncEvent.removed "/rep/hash_cache.json"] := by
  decide

/-- Counterexample for C4: source has `a.txt` (2 bytes), replica has a stale
`a.txt` (1 byte) and an extra `b.txt`.  The pass emits the removal of
`b.txt` before the update copy of `a.txt`: an update (copy) action occurs
after a remove action, because `synchronize` runs its loops in the order
add, remove, update. -/
theorem c4_order_counterexample :
    let r := synchronize ⟨false, false, [], false, 3⟩ ⟨fun _ => "", fun _ => [], 0⟩
      "/src" "/rep" ⟨[(["a.txt"], EntryData.file [1, 1] 0)]⟩
      ⟨⟨[(["a.txt"], EntryData.file [1] 0), (["b.txt"], EntryData.file [] 0)]⟩, [], [], []⟩
    r.exc = none ∧
    r.state.events = [SyncEvent.removed "/rep/b.txt", SyncEvent.copyFile "/rep/a.txt"] ∧
    r.state.updated = [["a.txt"]] := by
  decide

/-- Counterexample for C9: source holds directories `a` and `a/b`, the
replica holds a regular file `a`.  The live pass aborts inside
`os.makedirs` (uncaught `ensure_dir_exists` exception) after emitting no
event, while the dry pass completes and emits a copy event: the dry run
does not emit the same copy/remove events as the live run would. -/
theorem c9_dry_run_counterexample :
    let live := synchronize ⟨false, false, [], false, 3⟩ ⟨fun _ => "", fun _ => [], 0⟩
      "/src" "/rep" ⟨[(["a"], EntryData.dir), (["a", "b"], EntryData.dir)]⟩
      ⟨⟨[(["a"], EntryData.file [] 0)]⟩, [], [], []⟩
    let dry := synchronize ⟨false, false, [], true, 3⟩ ⟨fun _ => "", fun _ => [], 0⟩
      "/src" "/rep" ⟨[(["a"], EntryData.dir), (["a", "b"], EntryData.dir)]⟩
      ⟨⟨[(["a"], EntryData.file [] 0)]⟩, [], [], []⟩
    dry.state.replica = ⟨[(["a"], EntryData.file [] 0)]⟩ ∧
    live.exc = some "makedirs" ∧ live.state.events = [] ∧
    dry.state.events = [SyncEvent.copyDir "/rep/a/b"] ∧
    live.state.events ≠ dry.state.events := by
  decide

/-- Counterexample for C10: with caching enabled, dry-run off, the cache
file present in the replica and absent in the source, an ignore pattern
`"*.json"` keeps `hash_cache.json` out of the replica scan, so it is not
in `to_remove` and is not deleted — only rewritten at flush. -/
theorem c10_cache_file_counterexample :
    let r := synchronize ⟨false, true, ["*.json"], false, 3⟩ ⟨fun _ => "", fun _ => [], 0⟩
      "/src" "/rep" ⟨[]⟩ ⟨⟨[(["hash_cache.json"], EntryData.file [1] 0)]⟩, [], [], []⟩
    r.exc = none ∧ r.to_remove = [] ∧ r.state.events = [] := by
  decide

/-! ## Lookup lemmas for the flat filesystem -/

theorem lookupEntries_eq_none {l : List (RelPath × EntryData)} {p : RelPath} :
    lookupEntries l p = none ↔ ∀ e ∈ l, e.1 ≠ p := by
  induction l with
  | nil => simp [lookupEntries]
  | cons r rest ih =>
    obtain ⟨r1, r2⟩ := r
    by_cases h : r1 = p
    · simp [lookupEntries, h]
    · simp [lookupEntries, h, ih]

theorem lookupEntries_mem {l : List (RelPath × EntryData)} {p : RelPath} {e : EntryData}
    (h : lookupEntries l p = some e) : (p, e) ∈ l := by
  induction l with
  | nil => simp [lookupEntries] at h
  | cons r rest ih =>
    obtain ⟨r1, r2⟩ := r
    rw [lookupEntries] at h
    by_cases hr : r1 = p
    · simp only [hr, if_pos] at h
      cases h
      subst hr
      exact List.mem_cons_self _ _
    · simp only [hr, if_false, ite_false] at h
      exact List.mem_cons_of_mem _ (ih h)

theorem mem_lookupEntries {l : List (RelPath × EntryData)}
    (hnd : (l.map Prod.fst).Nodup) {p : RelPath} {e : EntryData}
    (h : (p, e) ∈ l) : lookupEntries l p = some e := by
  induction l with
  | nil => simp at h
  | cons r rest ih =>
    obtain ⟨r1, r2⟩ := r
    rw [List.map_cons, List.nodup_cons] at hnd
    rcases List.mem_cons.mp h with h1 | h1
    · cases h1
      simp [lookupEntries]
    · have hr : r1 ≠ p := by
        intro hc
        subst hc
        exact hnd.1 (List.mem_map.mpr ⟨(r1, e), h1, rfl⟩)
      rw [lookupEntries, if_neg hr]
      exact ih hnd.2 h1

theorem lookupEntries_isSome {l : List (RelPath × EntryData)} {p : RelPath} :
    (lookupEntries l p).isSome = true ↔ p ∈ l.map Prod.fst := by
  induction l with
  | nil => simp [lookupEntries]
  | cons r rest ih =>
    obtain ⟨r1, r2⟩ := r
    by_cases h : r1 = p
    · simp [lookupEntries, h]
    · simp [lookupEntries, h, ih, Ne.symm h]

theorem lookupEntries_append_left {l₁ l₂ : List (RelPath × EntryData)} {p : RelPath}
    {e : EntryData} (h : lookupEntries l₁ p = some e) :
    lookupEntries (l₁ ++ l₂) p = some e := by
  induction l₁ with
  | nil => simp [lookupEntries] at h
  | cons r rest ih =>
    rw [lookupEntries] at h
    rw [List.cons_append, lookupEntries]
    by_cases hr : r.1 = p
    · rwa [if_pos hr] at h ⊢
    · rw [if_neg hr] at h ⊢
      exact ih h

theorem lookupEntries_append_right {l₁ l₂ : List (RelPath × EntryData)} {p : RelPath}
    (h : lookupEntries l₁ p = none) :
    lookupEntries (l₁ ++ l₂) p = lookupEntries l₂ p := by
  induction l₁ with
  | nil => simp
  | cons r rest ih =>
    rw [lookupEntries] at h
    rw [List.cons_append, lookupEntries]
    by_cases hr : r.1 = p
    · rw [if_pos hr] at h
      exact absurd h (by simp)
    · rw [if_neg hr] at h ⊢
      exact ih h

theorem lookupEntries_filter_key {g : RelPath → Bool} {l : List (RelPath × EntryData)}
    {p : RelPath} :
    lookupEntries (l.filter (fun q => g q.1)) p =
      if g p then lookupEntries l p else none := by
  induction l with
  | nil =>
    simp only [List.filter_nil, lookupEntries]
    split <;> rfl
  | cons r rest ih =>
    by_cases hg : g r.1
    · rw [List.filter_cons_of_pos (by simpa using hg), lookupEntries, lookupEntries]
      by_cases hr : r.1 = p
      · rw [if_pos hr, if_pos (hr ▸ hg), if_pos hr]
      · rw [if_neg hr, if_neg hr, ih]
    · rw [List.filter_cons_of_neg (by simpa using hg), lookupEntries, ih]
      by_cases hr : r.1 = p
      · subst hr
        rw [if_neg (by simpa using hg), if_neg (by simpa using hg)]
      · rw [if_neg hr]

theorem lookupEntries_overwrite {l : List (RelPath × EntryData)} {p : RelPath}
    {e : EntryData} (q : RelPath) :
    lookupEntries (l.map (fun r => if r.1 = p then (p, e) else r)) q =
      if q = p then (if (lookupEntries l p).isSome then some e else none)
      else lookupEntries l q := by
  induction l with
  | nil =>
    simp only [List.map_nil, lookupEntries, Option.isSome_none, Bool.false_eq_true, if_false]
    split <;> rfl
  | cons r rest ih =>
    obtain ⟨r1, r2⟩ := r
    by_cases hr : r1 = p
    · subst hr
      by_cases hq : q = r1
      · subst hq
        simp [lookupEntries, ih]
      · simp [lookupEntries, hq, Ne.symm hq, ih]
    · by_cases hq : r1 = q
      · subst hq
        have hqp : r1 ≠ p := hr
        simp only [List.map_cons, if_neg hr, lookupEntries, if_pos rfl, if_neg hqp]
        rw [if_pos trivial, if_pos trivial]
      · simp only [List.map_cons, if_neg hr, lookupEntries, if_neg hq, ih]

theorem lookupEntries_const_dir {ks : List RelPath} {q : RelPath} :
    lookupEntries (ks.map (fun k => (k, EntryData.dir))) q =
      if q ∈ ks then some EntryData.dir else none := by
  induction ks with
  | nil => simp [lookupEntries]
  | cons k rest ih =>
    rw [List.map_cons, lookupEntries]
    by_cases hk : k = q
    · rw [if_pos hk, hk, if_pos (List.mem_cons_self _ _)]
    · rw [if_neg hk, ih]
      by_cases hq : q ∈ rest
      · rw [if_pos hq, if_pos (List.mem_cons_of_mem _ hq)]
      · rw [if_neg hq, if_neg (by simp [Ne.symm hk, hq])]

/-! ## Specifications of the filesystem mutations -/

theorem fsLookup_ne_root {fs : FS} {p : RelPath} (hp : p ≠ []) :
    fsLookup fs p = lookupEntries fs.entries p :=
  if_neg hp

theorem fsSet_lookup (fs : FS) {p : RelPath} (e : EntryData) (hp : p ≠ []) (q : RelPath) :
    fsLookup (fsSet fs p e) q = if q = p then some e else fsLookup fs q := by
  by_cases hq : q = []
  · subst hq
    rw [if_neg (fun hc => hp hc.symm)]
    rfl
  · rw [fsSet]
    by_cases hs : (lookupEntries fs.entries p).isSome
    · rw [if_pos hs, fsLookup_ne_root hq, fsLookup_ne_root hq]
      rw [show (⟨fs.entries.map (fun q => if q.1 = p then (p, e) else q)⟩ : FS).entries
          = fs.entries.map (fun q => if q.1 = p then (p, e) else q) from rfl]
      rw [lookupEntries_overwrite, if_pos hs]
    · rw [if_neg hs, fsLookup_ne_root hq, fsLookup_ne_root hq]
      rw [show (⟨fs.entries ++ [(p, e)]⟩ : FS).entries = fs.entries ++ [(p, e)] from rfl]
      by_cases hqp : q = p
      · subst hqp
        rw [lookupEntries_append_right (Option.not_isSome_iff_eq_none.mp hs), if_pos rfl]
        simp [lookupEntries]
      · rw [if_neg hqp]
        cases hlq : lookupEntries fs.entries q with
        | some x => rw [lookupEntries_append_left hlq]
        | none =>
          rw [lookupEntries_append_right hlq]
          simp only [lookupEntries, if_neg (fun hc : p = q => hqp hc.symm)]

theorem fsRemoveTree_lookup (fs : FS) {p : RelPath} (hp : p ≠ []) (q : RelPath) :
    fsLookup (fsRemoveTree fs p) q = if p.isPrefixOf q then none else fsLookup fs q := by
  by_cases hq : q = []
  · subst hq
    rw [if_neg (by simp [List.isPrefixOf_iff_prefix, List.prefix_nil, hp])]
    rfl
  · rw [fsRemoveTree, fsLookup_ne_root hq, fsLookup_ne_root hq]
    rw [show (⟨fs.entries.filter (fun r => !(p.isPrefixOf r.1))⟩ : FS).entries
        = fs.entries.filter (fun r => !(p.isPrefixOf r.1)) from rfl]
    rw [lookupEntries_filter_key (g := fun k => !(p.isPrefixOf k))]
    by_cases hpre : p.isPrefixOf q
    · rw [if_pos hpre, if_neg (by simp [hpre])]
    · rw [if_neg hpre, if_pos (by simp [hpre])]

theorem fsRemoveFile_lookup (fs : FS) {p : RelPath} (hp : p ≠ []) (q : RelPath) :
    fsLookup (fsRemoveFile fs p) q = if q = p then none else fsLookup fs q := by
  by_cases hq : q = []
  · subst hq
    rw [if_neg (fun hc => hp hc.symm)]
    rfl
  · rw [fsRemoveFile, fsLookup_ne_root hq, fsLookup_ne_root hq]
    rw [show (⟨fs.entries.filter (fun r => !(r.1 == p))⟩ : FS).entries
        = fs.entries.filter (fun r => !(r.1 == p)) from rfl]
    rw [lookupEntries_filter_key (g := fun k => !(k == p))]
    by_cases hqp : q = p
    · rw [if_pos hqp, if_neg (by simp [hqp])]
    · rw [if_neg hqp, if_pos (by simp [hqp])]

theorem fsMakedirs_ok {fs : FS} {p : RelPath}
    (hnofile : ∀ q ∈ p.inits, q ≠ [] → isFileAt fs q = false)
    (hnex : existsAt fs p = false) :
    fsMakedirs fs p = some ⟨fs.entries ++
      (p.inits.filter (fun q => !q.isEmpty && !(existsAt fs q))).map
        (fun q => (q, EntryData.dir))⟩ := by
  rw [fsMakedirs, if_neg]
  intro hc
  rcases Bool.or_eq_true _ _ |>.mp hc with h1 | h1
  · rcases List.any_eq_true.mp h1 with ⟨q, hq, hq2⟩
    rcases Bool.and_eq_true _ _ |>.mp hq2 with ⟨hq3, hq4⟩
    have hqne : q ≠ [] := by
      intro hn
      subst hn
      simp at hq3
    rw [hnofile q hq hqne] at hq4
    exact Bool.false_ne_true hq4
  · rw [hnex] at h1
    exact Bool.false_ne_true h1

theorem fsMakedirs_lookup {fs : FS} {p : RelPath} {fs' : FS}
    (h : fsMakedirs fs p = some fs') (q : RelPath) :
    fsLookup fs' q =
      if q ∈ p.inits ∧ q ≠ [] ∧ lookupEntries fs.entries q = none then some EntryData.dir
      else fsLookup fs q := by
  rw [fsMakedirs] at h
  split at h
  · exact absurd h (by simp)
  · cases h
    by_cases hq : q = []
    · subst hq
      rw [if_neg (by simp)]
      rfl
    · rw [fsLookup_ne_root hq, fsLookup_ne_root hq]
      rw [show (⟨fs.entries ++ (p.inits.filter (fun r => !r.isEmpty && !(existsAt fs r))).map
          (fun r => (r, EntryData.dir))⟩ : FS).entries = fs.entries ++
          (p.inits.filter (fun r => !r.isEmpty && !(existsAt fs r))).map
          (fun r => (r, EntryData.dir)) from rfl]
      cases hlq : lookupEntries fs.entries q with
      | some x =>
        rw [lookupEntries_append_left hlq, if_neg (by simp [hlq])]
      | none =>
        rw [lookupEntries_append_right hlq, lookupEntries_const_dir]
        have hex : existsAt fs q = false := by
          rw [existsAt, fsLookup_ne_root hq, hlq]
          rfl
        by_cases hmem : q ∈ p.inits
        · rw [if_pos (by simp [List.mem_filter, hmem, hex, hq]), if_pos ⟨hmem, hq, rfl⟩]
        · rw [if_neg (by simp [List.mem_filter, hmem]), if_neg (by simp [hmem])]

/-! ## Preservation of tree well-formedness -/

theorem inits_nodup (l : RelPath) : l.inits.Nodup := by
  induction l with
  | nil => simp
  | cons a t ih =>
    rw [List.inits_cons]
    refine List.Nodup.cons (by simp) (ih.map ?_)
    intro x y h
    exact List.tail_eq_of_cons_eq h

theorem lookupEntries_nil_key {l : List (RelPath × EntryData)}
    (hne : ∀ r ∈ l, r.1 ≠ []) : lookupEntries l [] = none :=
  lookupEntries_eq_none.mpr hne

theorem some_dir_of_not_file {fs : FS} {q : RelPath}
    (h1 : (fsLookup fs q).isSome) (h2 : isFileAt fs q = false) :
    fsLookup fs q = some EntryData.dir := by
  cases hl : fsLookup fs q with
  | none => rw [hl] at h1; simp at h1
  | some e =>
    cases e with
    | file c m => rw [isFileAt, hl] at h2; simp at h2
    | dir => rfl

theorem fswf_closure_iff {fs : FS} (hnd : (fs.entries.map Prod.fst).Nodup) :
    (∀ e ∈ fs.entries, ∀ q ∈ e.1.inits, q ≠ [] → q ≠ e.1 → (q, EntryData.dir) ∈ fs.entries) ↔
    (∀ p e', lookupEntries fs.entries p = some e' → ∀ q ∈ p.inits, q ≠ [] → q ≠ p →
      lookupEntries fs.entries q = some EntryData.dir) := by
  constructor
  · intro h p e' hp q hq hq1 hq2
    exact mem_lookupEntries hnd (h (p, e') (lookupEntries_mem hp) q hq hq1 hq2)
  · intro h e he q hq hq1 hq2
    exact lookupEntries_mem (h e.1 e.2 (mem_lookupEntries hnd he) q hq hq1 hq2)

theorem fswf_no_nil {fs : FS} (hwf : FSWf fs) {q : RelPath}
    (h : (lookupEntries fs.entries q).isSome) : q ≠ [] := by
  intro hc
  subst hc
  rw [lookupEntries_nil_key hwf.2.1] at h
  simp at h

theorem fswf_lookup_closure {fs : FS} (hwf : FSWf fs) {p : RelPath} {e : EntryData}
    (hp : lookupEntries fs.entries p = some e) {q : RelPath} (hq : q <+: p)
    (hq1 : q ≠ []) (hq2 : q ≠ p) : lookupEntries fs.entries q = some EntryData.dir :=
  (fswf_closure_iff hwf.1).mp hwf.2.2 p e hp q ((List.mem_inits q p).mpr hq) hq1 hq2

theorem fsSet_keys (fs : FS) (p : RelPath) (e : EntryData) :
    (fsSet fs p e).entries.map Prod.fst =
      if (lookupEntries fs.entries p).isSome then fs.entries.map Prod.fst
      else fs.entries.map Prod.fst ++ [p] := by
  rw [fsSet]
  by_cases hs : (lookupEntries fs.entries p).isSome
  · rw [if_pos hs, if_pos hs]
    rw [show (⟨fs.entries.map (fun q => if q.1 = p then (p, e) else q)⟩ : FS).entries
        = fs.entries.map (fun q => if q.1 = p then (p, e) else q) from rfl]
    rw [List.map_map]
    refine List.map_congr_left (fun r _ => ?_)
    by_cases h : r.1 = p
    · simp [h]
    · simp [h]
  · rw [if_neg hs, if_neg hs]
    simp

theorem fswf_fsSet {fs : FS} {p : RelPath} {e : EntryData} (hwf : FSWf fs) (hp : p ≠ [])
    (hpar : ∀ q, q <+: p → q ≠ [] → q ≠ p → fsLookup fs q = some EntryData.dir)
    (hchld : ∀ q, p <+: q → p ≠ q → lookupEntries fs.entries q = none) :
    FSWf (fsSet fs p e) := by
  have hkeys := fsSet_keys fs p e
  have hnd' : ((fsSet fs p e).entries.map Prod.fst).Nodup := by
    rw [hkeys]
    by_cases hs : (lookupEntries fs.entries p).isSome
    · rw [if_pos hs]
      exact hwf.1
    · rw [if_neg hs]
      rw [List.nodup_append]
      refine ⟨hwf.1, List.nodup_singleton _, ?_⟩
      intro a ha hb
      rw [List.mem_singleton] at hb
      subst hb
      exact hs (lookupEntries_isSome.mpr ha)
  have hne' : ∀ r ∈ (fsSet fs p e).entries, r.1 ≠ [] := by
    intro r hr
    have : r.1 ∈ (fsSet fs p e).entries.map Prod.fst := List.mem_map_of_mem Prod.fst hr
    rw [hkeys] at this
    by_cases hs : (lookupEntries fs.entries p).isSome
    · rw [if_pos hs] at this
      rcases List.mem_map.mp this with ⟨r', hr', hr2⟩
      exact hr2 ▸ hwf.2.1 r' hr'
    · rw [if_neg hs, List.mem_append] at this
      rcases this with h1 | h1
      · rcases List.mem_map.mp h1 with ⟨r', hr', hr2⟩
        exact hr2 ▸ hwf.2.1 r' hr'
      · rw [List.mem_singleton] at h1
        exact h1 ▸ hp
  refine ⟨hnd', hne', (fswf_closure_iff hnd').mpr ?_⟩
  intro p' e' hp' q hqi hq1 hq2
  have hp'ne : p' ≠ [] := by
    intro hc
    subst hc
    rw [lookupEntries_nil_key hne'] at hp'
    simp at hp'
  have hql : q <+: p' := (List.mem_inits q p').mp hqi
  rw [← fsLookup_ne_root hp'ne, fsSet_lookup fs e hp p'] at hp'
  rw [← fsLookup_ne_root hq1, fsSet_lookup fs e hp q]
  by_cases hpp : p' = p
  · subst hpp
    rw [if_neg (fun hc : q = p' => hq2 hc)]
    exact hpar q hql hq1 hq2
  · rw [if_neg hpp] at hp'
    rw [fsLookup_ne_root hp'ne] at hp'
    have hdir := fswf_lookup_closure hwf hp' hql hq1 hq2
    rw [if_neg, fsLookup_ne_root hq1]
    · exact hdir
    · intro hc
      have hnone := hchld p' (hc ▸ hql) (fun hc2 => hpp hc2.symm)
      rw [hnone] at hp'
      exact Option.noConfusion hp'

theorem fswf_fsRemoveTree {fs : FS} {p : RelPath} (hwf : FSWf fs) (hp : p ≠ []) :
    FSWf (fsRemoveTree fs p) := by
  have hent : (fsRemoveTree fs p).entries = fs.entries.filter (fun r => !(p.isPrefixOf r.1)) := rfl
  have hnd' : ((fsRemoveTree fs p).entries.map Prod.fst).Nodup := by
    rw [hent]
    exact ((List.filter_sublist _).map Prod.fst).nodup hwf.1
  have hne' : ∀ r ∈ (fsRemoveTree fs p).entries, r.1 ≠ [] := by
    intro r hr
    rw [hent, List.mem_filter] at hr
    exact hwf.2.1 r hr.1
  refine ⟨hnd', hne', (fswf_closure_iff hnd').mpr ?_⟩
  intro p' e' hp' q hqi hq1 hq2
  have hp'ne : p' ≠ [] := by
    intro hc
    subst hc
    rw [lookupEntries_nil_key hne'] at hp'
    simp at hp'
  have hql : q <+: p' := (List.mem_inits q p').mp hqi
  rw [← fsLookup_ne_root hp'ne, fsRemoveTree_lookup fs hp p'] at hp'
  rw [← fsLookup_ne_root hq1, fsRemoveTree_lookup fs hp q]
  by_cases hpre : p.isPrefixOf p'
  · rw [if_pos hpre] at hp'
    exact Option.noConfusion hp'
  · rw [if_neg hpre] at hp'
    rw [fsLookup_ne_root hp'ne] at hp'
    have hdir := fswf_lookup_closure hwf hp' hql hq1 hq2
    rw [if_neg, fsLookup_ne_root hq1]
    · exact hdir
    · intro hc
      exact hpre (by
        rw [List.isPrefixOf_iff_prefix] at hc ⊢
        exact hc.trans hql)

theorem fswf_fsRemoveFile {fs : FS} {p : RelPath} (hwf : FSWf fs) (hp : p ≠ [])
    (hnd2 : fsLookup fs p ≠ some EntryData.dir) : FSWf (fsRemoveFile fs p) := by
  have hent : (fsRemoveFile fs p).entries = fs.entries.filter (fun r => !(r.1 == p)) := rfl
  have hnd' : ((fsRemoveFile fs p).entries.map Prod.fst).Nodup := by
    rw [hent]
    exact ((List.filter_sublist _).map Prod.fst).nodup hwf.1
  have hne' : ∀ r ∈ (fsRemoveFile fs p).entries, r.1 ≠ [] := by
    intro r hr
    rw [hent, List.mem_filter] at hr
    exact hwf.2.1 r hr.1
  refine ⟨hnd', hne', (fswf_closure_iff hnd').mpr ?_⟩
  intro p' e' hp' q hqi hq1 hq2
  have hp'ne : p' ≠ [] := by
    intro hc
    subst hc
    rw [lookupEntries_nil_key hne'] at hp'
    simp at hp'
  have hql : q <+: p' := (List.mem_inits q p').mp hqi
  rw [← fsLookup_ne_root hp'ne, fsRemoveFile_lookup fs hp p'] at hp'
  rw [← fsLookup_ne_root hq1, fsRemoveFile_lookup fs hp q]
  by_cases hpp : p' = p
  · rw [if_pos hpp] at hp'
    exact Option.noConfusion hp'
  · rw [if_neg hpp] at hp'
    rw [fsLookup_ne_root hp'ne] at hp'
    have hdir := fswf_lookup_closure hwf hp' hql hq1 hq2
    rw [if_neg, fsLookup_ne_root hq1]
    · exact hdir
    · intro hc
      subst hc
      exact hnd2 (by rw [fsLookup_ne_root hq1]; exact hdir)

theorem fsMakedirs_guard {fs : FS} {p : RelPath} {fs' : FS}
    (h : fsMakedirs fs p = some fs') :
    (∀ q ∈ p.inits, q ≠ [] → isFileAt fs q = false) ∧ existsAt fs p = false := by
  rw [fsMakedirs] at h
  split at h
  · exact absurd h (by simp)
  · next hguard =>
    rw [Bool.or_eq_true, not_or] at hguard
    constructor
    · intro q hq hq1
      by_contra hc
      apply hguard.1
      refine List.any_eq_true.mpr ⟨q, hq, ?_⟩
      rw [Bool.and_eq_true]
      exact ⟨by simp [hq1], by simpa using hc⟩
    · by_contra hc
      exact hguard.2 (by simpa using hc)

theorem fsMakedirs_entries {fs : FS} {p : RelPath} {fs' : FS}
    (h : fsMakedirs fs p = some fs') :
    fs'.entries = fs.entries ++
      (p.inits.filter (fun q => !q.isEmpty && !(existsAt fs q))).map
        (fun q => (q, EntryData.dir)) := by
  rw [fsMakedirs] at h
  split at h
  · exact absurd h (by simp)
  · cases h
    rfl

theorem fswf_fsMakedirs {fs : FS} {p : RelPath} {fs' : FS} (hwf : FSWf fs)
    (h : fsMakedirs fs p = some fs') : FSWf fs' := by
  obtain ⟨hnofile, _⟩ := fsMakedirs_guard h
  have hent := fsMakedirs_entries h
  have hkeys : fs'.entries.map Prod.fst = fs.entries.map Prod.fst ++
      p.inits.filter (fun q => !q.isEmpty && !(existsAt fs q)) := by
    rw [hent, List.map_append, List.map_map]
    rw [show (Prod.fst ∘ fun q : RelPath => (q, EntryData.dir)) = id from rfl, List.map_id]
  have hnd' : (fs'.entries.map Prod.fst).Nodup := by
    rw [hkeys, List.nodup_append]
    refine ⟨hwf.1, (inits_nodup p).filter _, ?_⟩
    intro a ha hb
    rw [List.mem_filter] at hb
    have hane : a ≠ [] := by
      rcases List.mem_map.mp ha with ⟨r, hr, hr2⟩
      exact hr2 ▸ hwf.2.1 r hr
    have hex : existsAt fs a = true := by
      rw [existsAt, fsLookup_ne_root hane, lookupEntries_isSome]
      exact ha
    rw [hex] at hb
    simp at hb
  have hne' : ∀ r ∈ fs'.entries, r.1 ≠ [] := by
    intro r hr
    rw [hent, List.mem_append] at hr
    rcases hr with h1 | h1
    · exact hwf.2.1 r h1
    · rcases List.mem_map.mp h1 with ⟨q, hq, hq2⟩
      rw [List.mem_filter] at hq
      intro hc
      rw [← hq2] at hc
      simp only at hc
      rw [hc] at hq
      simp at hq
  refine ⟨hnd', hne', (fswf_closure_iff hnd').mpr ?_⟩
  intro p' e' hp' q hqi hq1 hq2
  have hp'ne : p' ≠ [] := by
    intro hc
    subst hc
    rw [lookupEntries_nil_key hne'] at hp'
    simp at hp'
  have hql : q <+: p' := (List.mem_inits q p').mp hqi
  rw [← fsLookup_ne_root hp'ne, fsMakedirs_lookup h p'] at hp'
  rw [← fsLookup_ne_root hq1, fsMakedirs_lookup h q]
  by_cases hcq : q ∈ p.inits ∧ q ≠ [] ∧ lookupEntries fs.entries q = none
  · rw [if_pos hcq]
  · rw [if_neg hcq]
    by_cases hcp : p' ∈ p.inits ∧ p' ≠ [] ∧ lookupEntries fs.entries p' = none
    · have hqp : q ∈ p.inits :=
        (List.mem_inits q p).mpr (hql.trans ((List.mem_inits p' p).mp hcp.1))
      have hsome : (fsLookup fs q).isSome := by
        rw [fsLookup_ne_root hq1]
        exact Option.ne_none_iff_isSome.mp (fun hn => hcq ⟨hqp, hq1, hn⟩)
      exact some_dir_of_not_file hsome (hnofile q hqp hq1)
    · rw [if_neg hcp, fsLookup_ne_root hp'ne] at hp'
      rw [fsLookup_ne_root hq1]
      exact fswf_lookup_closure hwf hp' hql hq1 hq2

/-! ## Characterization of the scanner output -/

theorem scanOk_of_prefix {ip : List String} {q p : RelPath} (hq : q <+: p)
    (h : scanOk ip p = true) : scanOk ip q = true := by
  rw [scanOk, List.all_eq_true] at h ⊢
  intro r hr
  exact h r ((List.mem_inits r p).mpr (((List.mem_inits r q).mp hr).trans hq))

theorem mem_scan_files {ip : List String} {fs : FS} (hwf : FSWf fs) {p : RelPath} :
    p ∈ (get_all_items ip (some fs)).1 ↔
      (∃ c m, lookupEntries fs.entries p = some (EntryData.file c m)) ∧ scanOk ip p = true := by
  rw [get_all_items]
  simp only [List.mem_filterMap]
  constructor
  · rintro ⟨e, he, hfe⟩
    obtain ⟨p', d⟩ := e
    cases d with
    | dir => simp at hfe
    | file c m =>
      simp only at hfe
      by_cases hs : scanOk ip p' = true
      · rw [if_pos hs] at hfe
        cases hfe
        exact ⟨⟨c, m, mem_lookupEntries hwf.1 he⟩, hs⟩
      · rw [if_neg hs] at hfe
        exact Option.noConfusion hfe
  · rintro ⟨⟨c, m, hl⟩, hs⟩
    refine ⟨(p, EntryData.file c m), lookupEntries_mem hl, ?_⟩
    simp only [if_pos hs]

theorem mem_scan_dirs {ip : List String} {fs : FS} (hwf : FSWf fs) {p : RelPath} :
    p ∈ (get_all_items ip (some fs)).2 ↔
      lookupEntries fs.entries p = some EntryData.dir ∧ scanOk ip p = true := by
  rw [get_all_items]
  simp only [List.mem_filterMap]
  constructor
  · rintro ⟨e, he, hfe⟩
    obtain ⟨p', d⟩ := e
    cases d with
    | file c m => simp at hfe
    | dir =>
      simp only at hfe
      by_cases hs : scanOk ip p' = true
      · rw [if_pos hs] at hfe
        cases hfe
        exact ⟨mem_lookupEntries hwf.1 he, hs⟩
      · rw [if_neg hs] at hfe
        exact Option.noConfusion hfe
  · rintro ⟨hl, hs⟩
    refine ⟨(p, EntryData.dir), lookupEntries_mem hl, ?_⟩
    simp only [if_pos hs]

theorem mem_scan_all {ip : List String} {fs : FS} (hwf : FSWf fs) {p : RelPath} :
    p ∈ (get_all_items ip (some fs)).1 ++ (get_all_items ip (some fs)).2 ↔
      (lookupEntries fs.entries p).isSome = true ∧ scanOk ip p = true := by
  rw [List.mem_append, mem_scan_files hwf, mem_scan_dirs hwf]
  constructor
  · rintro (⟨⟨c, m, hl⟩, hs⟩ | ⟨hl, hs⟩)
    · exact ⟨by simp [hl], hs⟩
    · exact ⟨by simp [hl], hs⟩
  · rintro ⟨hl, hs⟩
    cases hle : lookupEntries fs.entries p with
    | none => rw [hle] at hl; simp at hl
    | some e =>
      cases e with
      | file c m => exact Or.inl ⟨⟨c, m, rfl⟩, hs⟩
      | dir => exact Or.inr ⟨rfl, hs⟩

theorem scan_all_ne_nil {ip : List String} {fs : FS} (hwf : FSWf fs) {p : RelPath}
    (h : p ∈ (get_all_items ip (some fs)).1 ++ (get_all_items ip (some fs)).2) : p ≠ [] :=
  fswf_no_nil hwf ((mem_scan_all hwf).mp h).1

theorem conflictfree_lookup {a b : FS} (hc : ConflictFree a b) {p : RelPath}
    {ea eb : EntryData} (hla : lookupEntries a.entries p = some ea)
    (hlb : lookupEntries b.entries p = some eb) :
    ea = EntryData.dir ↔ eb = EntryData.dir :=
  hc (p, ea) (lookupEntries_mem hla) (p, eb) (lookupEntries_mem hlb) rfl

/-! ## Retry and equality-check lemmas -/

theorem retry_success_of_pos {n : Nat} (hn : 1 ≤ n) (name : String) :
    retry_operation n name (fun _ => true) = ⟨1, true, []⟩ := by
  cases n with
  | zero => omega
  | succ m => rfl

theorem retryAux_events_noise (name : String) (op : Nat → Bool) (total : Nat) :
    ∀ fuel i, ∀ e ∈ (retryAux name op total i fuel).events, isNoiseEvent e = true := by
  intro fuel
  induction fuel with
  | zero =>
    intro i e he
    rw [retryAux] at he
    rcases List.mem_singleton.mp he with rfl
    rfl
  | succ n ih =>
    intro i e he
    rw [retryAux] at he
    by_cases hop : op i = true
    · rw [if_pos hop] at he
      simp at he
    · rw [if_neg hop] at he
      simp only [List.mem_cons] at he
      rcases he with rfl | rfl | he
      · rfl
      · rfl
      · exact ih (i + 1) e he

theorem retry_events_noise (n : Nat) (name : String) (op : Nat → Bool) :
    ∀ e ∈ (retry_operation n name op).events, isNoiseEvent e = true :=
  retryAux_events_noise name op n n 0


theorem md5_no_cache (env : SyncEnv) (cache : HashCache) (fs : FS) (rel : RelPath)
    (root : String) :
    md5 false env cache fs rel root =
      ⟨(md5_pure env (fsLookup fs rel)).1, cache, (md5_pure env (fsLookup fs rel)).2⟩ := by
  rw [md5]
  cases fsLookup fs rel with
  | none => rfl
  | some e =>
    cases e with
    | dir => simp [md5_pure]
    | file c m => simp [md5_pure]

theorem files_differ_eq_pure {cfg : SyncConfig} (hc : cfg.use_hash_cache = false)
    (env : SyncEnv) (cache : HashCache) (source replica : FS) (srcRel repRel : RelPath)
    (srcRoot repRoot : String) :
    files_differ cfg env cache source replica srcRel repRel srcRoot repRoot =
      (files_differ_pure cfg.use_md5 env (fsLookup source srcRel) (fsLookup replica repRel),
       cache) := by
  cases hre : fsLookup replica repRel with
  | none =>
    rw [files_differ, if_pos (by simp [existsAt, hre])]
    rfl
  | some re =>
    rw [files_differ, if_neg (by simp [existsAt, hre]), hc]
    have hpure : files_differ_pure cfg.use_md5 env (fsLookup source srcRel) (some re) =
        if cfg.use_md5 then
          (match (md5_pure env (fsLookup source srcRel)).1 with
            | Except.error e => Except.error e
            | Except.ok h1 =>
              match (md5_pure env (some re)).1 with
              | Except.error e => Except.error e
              | Except.ok h2 => Except.ok (decide (h1 ≠ h2)))
        else
          (match fsLookup source srcRel with
            | some s =>
              if statSize s ≠ statSize re then Except.ok true
              else if 1 < pyAbsDiff (statMtime s) (statMtime re) then Except.ok true
              else Except.ok false
            | none => Except.error "FileNotFoundError") := rfl
    rw [hpure]
    by_cases hmd : cfg.use_md5 = true
    · rw [if_pos hmd, if_pos hmd]
      rw [md5_no_cache env cache source srcRel srcRoot]
      dsimp only
      cases (md5_pure env (fsLookup source srcRel)).1 with
      | error e => rfl
      | ok h1 =>
        rw [md5_no_cache env cache replica repRel repRoot, hre]
        dsimp only
        cases (md5_pure env (some re)).1 with
        | error e => rfl
        | ok h2 => rfl
    · rw [if_neg hmd, if_neg hmd, hre]
      cases hse : fsLookup source srcRel with
      | none => rfl
      | some se =>
        dsimp only
        by_cases h1 : statSize se ≠ statSize re
        · rw [if_pos h1, if_pos h1]
        · rw [if_neg h1, if_neg h1]
          by_cases h2 : 1 < pyAbsDiff (statMtime se) (statMtime re)
          · rw [if_pos h2, if_pos h2]
          · rw [if_neg h2, if_neg h2]

theorem files_differ_pure_self (use_md5 : Bool) (env : SyncEnv) (c : List Nat) (m : ℚ) :
    files_differ_pure use_md5 env (some (EntryData.file c m)) (some (EntryData.file c m)) =
      Except.ok false := by
  rw [files_differ_pure]
  by_cases hmd : use_md5 = true
  · rw [if_pos hmd]
    simp [md5_pure]
  · rw [if_neg hmd]
    rw [if_neg (by simp), if_neg]
    rw [pyAbsDiff_eq]
    simp

theorem md5_ok (useCache : Bool) (env : SyncEnv) (cache : HashCache) {fs : FS}
    {rel : RelPath} (root : String) (h : fsLookup fs rel ≠ some EntryData.dir) :
    ∃ d cache' rb, md5 useCache env cache fs rel root = ⟨Except.ok d, cache', rb⟩ := by
  rw [md5]
  cases hl : fsLookup fs rel with
  | none => exact ⟨"", cache, false, rfl⟩
  | some e =>
    cases e with
    | dir => exact absurd hl h
    | file c m =>
      dsimp only
      split
      · exact ⟨_, _, _, rfl⟩
      · exact ⟨_, _, _, rfl⟩

theorem files_differ_ok (cfg : SyncConfig) (env : SyncEnv) (cache : HashCache)
    {source replica : FS} {srcRel repRel : RelPath} (srcRoot repRoot : String)
    (hsrc : ∃ c m, fsLookup source srcRel = some (EntryData.file c m))
    (hrep : fsLookup replica repRel ≠ some EntryData.dir) :
    ∃ b cache', files_differ cfg env cache source replica srcRel repRel srcRoot repRoot =
      (Except.ok b, cache') := by
  rw [files_differ]
  by_cases hex : ¬ existsAt replica repRel = true
  · rw [if_pos hex]
    exact ⟨true, cache, rfl⟩
  · rw [if_neg hex]
    by_cases hmd : cfg.use_md5 = true
    · rw [if_pos hmd]
      obtain ⟨c, m, hse⟩ := hsrc
      obtain ⟨d1, c1, rb1, h1⟩ := md5_ok cfg.use_hash_cache env cache srcRoot
        (by rw [hse]; simp)
      rw [h1]
      dsimp only
      obtain ⟨d2, c2, rb2, h2⟩ := md5_ok cfg.use_hash_cache env c1 repRoot hrep
      rw [h2]
      exact ⟨_, _, rfl⟩
    · rw [if_neg hmd]
      obtain ⟨c, m, hse⟩ := hsrc
      rw [hse]
      cases hre : fsLookup replica repRel with
      | none =>
        rw [existsAt, hre] at hex
        simp at hex
      | some re =>
        cases re with
        | dir => exact absurd hre hrep
        | file c' m' =>
          dsimp only
          split
          · exact ⟨_, _, rfl⟩
          · split
            · exact ⟨_, _, rfl⟩
            · exact ⟨_, _, rfl⟩

/-! ## Step specification: copy_item -/

theorem isDirAt_iff {fs : FS} {q : RelPath} :
    isDirAt fs q = true ↔ fsLookup fs q = some EntryData.dir := by
  rw [isDirAt, beq_iff_eq]

theorem isFileAt_iff {fs : FS} {q : RelPath} :
    isFileAt fs q = true ↔ ∃ c m, fsLookup fs q = some (EntryData.file c m) := by
  rw [isFileAt]
  cases h : fsLookup fs q with
  | none => simp
  | some e => cases e <;> simp

theorem prefix_dropLast_of_proper {q rel : RelPath} (h : q <+: rel) (hne : q ≠ rel) :
    q <+: rel.dropLast := by
  obtain ⟨t, ht⟩ := h
  cases t with
  | nil => exact absurd (by simpa using ht) hne
  | cons a t' =>
    refine ⟨(a :: t').dropLast, ?_⟩
    rw [← ht, List.dropLast_append_of_ne_nil]
    simp

/-- Effect of one successful `copy_item` call on a live run: the outcome is
normal, exactly one copy event is logged, the item ends up equal to its
source entry, every other change is the creation of a missing ancestor
directory (matching the source), and well-formedness is preserved. -/
theorem copy_item_spec {cfg : SyncConfig} {source : FS} {srcRoot repRoot : String}
    {st : SyncState} {rel : RelPath}
    (hdry : cfg.dry_run = false) (hretr : 1 ≤ cfg.max_retries)
    (hwfs : FSWf source) (hwf : FSWf st.replica) (hrelne : rel ≠ [])
    (hsrc : (lookupEntries source.entries rel).isSome = true)
    (hpref : ∀ q, q <+: rel → q ≠ [] → q ≠ rel → isFileAt st.replica q = false)
    (hok : fsLookup st.replica rel = none ∨
      fsLookup st.replica rel = lookupEntries source.entries rel ∨
      (isFileAt source rel = true ∧ fsLookup st.replica rel ≠ some EntryData.dir)) :
    ∃ R', copy_item cfg source srcRoot repRoot st rel =
        ⟨⟨R', st.cache, st.events ++ [copyEventOf source repRoot rel], st.updated⟩, none⟩ ∧
      fsLookup R' rel = lookupEntries source.entries rel ∧
      (∀ q, fsLookup R' q = fsLookup st.replica q ∨
        (q <+: rel ∧ q ≠ [] ∧ fsLookup R' q = lookupEntries source.entries q)) ∧
      FSWf R' := by
  obtain ⟨esrc, hesrc⟩ := Option.isSome_iff_exists.mp hsrc
  rw [copy_item, hdry]
  by_cases hdir : isDirAt source rel = true
  · have hsrcdir : lookupEntries source.entries rel = some EntryData.dir := by
      have h2 := isDirAt_iff.mp hdir
      rwa [fsLookup_ne_root hrelne] at h2
    rw [if_pos hdir]
    by_cases hex : existsAt st.replica rel = true
    · have hens : ensure_dir_exists false st.replica rel = .ok st.replica := by
        rw [ensure_dir_exists, if_neg]
        simp [hex]
      rw [hens]
      refine ⟨st.replica, ?_, ?_, fun q => Or.inl rfl, hwf⟩
      · rw [copyEventOf, if_pos hdir]
      · rcases hok with h | h | h
        · rw [existsAt, h] at hex
          simp at hex
        · rw [h, hsrcdir]
        · rcases isFileAt_iff.mp h.1 with ⟨c, m, hf⟩
          rw [fsLookup_ne_root hrelne, hsrcdir] at hf
          simp at hf
    · have hnone : fsLookup st.replica rel = none :=
        Option.not_isSome_iff_eq_none.mp (by rwa [existsAt] at hex)
      have hnoneE : lookupEntries st.replica.entries rel = none := by
        rwa [fsLookup_ne_root hrelne] at hnone
      have hexf : existsAt st.replica rel = false := by
        rw [existsAt, hnone]
        rfl
      have hnofile : ∀ q ∈ rel.inits, q ≠ [] → isFileAt st.replica q = false := by
        intro q hq hq1
        by_cases hqrel : q = rel
        · subst hqrel
          rw [isFileAt, hnone]
        · exact hpref q ((List.mem_inits q rel).mp hq) hq1 hqrel
      have hmk := fsMakedirs_ok hnofile hexf
      have hlk := fsMakedirs_lookup hmk
      have hens : ensure_dir_exists false st.replica rel =
          .ok ⟨st.replica.entries ++ (rel.inits.filter
            (fun q => !q.isEmpty && !(existsAt st.replica q))).map
            (fun q => (q, EntryData.dir))⟩ := by
        rw [ensure_dir_exists, if_pos ⟨by simp [hexf], by simp⟩, hmk]
      rw [hens]
      refine ⟨_, by rw [copyEventOf, if_pos hdir], ?_, ?_, fswf_fsMakedirs hwf hmk⟩
      · rw [hlk rel,
          if_pos ⟨(List.mem_inits rel rel).mpr List.prefix_rfl, hrelne, hnoneE⟩, hsrcdir]
      · intro q
        rw [hlk q]
        by_cases hcr : q ∈ rel.inits ∧ q ≠ [] ∧ lookupEntries st.replica.entries q = none
        · rw [if_pos hcr]
          right
          have hqrel : q <+: rel := (List.mem_inits q rel).mp hcr.1
          refine ⟨hqrel, hcr.2.1, ?_⟩
          by_cases hqe : q = rel
          · rw [hqe, hsrcdir]
          · rw [fswf_lookup_closure hwfs hesrc hqrel hcr.2.1 hqe]
        · rw [if_neg hcr]
          exact Or.inl rfl
  · rw [if_neg hdir]
    have hsf : ∃ c m, lookupEntries source.entries rel = some (EntryData.file c m) := by
      cases esrc with
      | dir =>
        exact absurd (isDirAt_iff.mpr (by rw [fsLookup_ne_root hrelne, hesrc])) hdir
      | file c m => exact ⟨c, m, hesrc⟩
    obtain ⟨c, m, hsf⟩ := hsf
    have hreldir : fsLookup st.replica rel ≠ some EntryData.dir := by
      rcases hok with h | h | h
      · rw [h]
        simp
      · rw [h, hsf]
        simp
      · exact h.2
    have hparpre : rel.dropLast <+: rel := List.dropLast_prefix rel
    have hparne : rel.dropLast ≠ rel := by
      intro hc
      have hlen := congrArg List.length hc
      rw [List.length_dropLast] at hlen
      have hpos := List.length_pos.mpr hrelne
      omega
    have hstep : ∃ R'', ensure_dir_exists false st.replica rel.dropLast = Except.ok R'' ∧
        fsLookup R'' rel = fsLookup st.replica rel ∧
        isDirAt R'' rel.dropLast = true ∧
        FSWf R'' ∧
        (∀ q, fsLookup R'' q = fsLookup st.replica q ∨
          (q <+: rel ∧ q ≠ [] ∧ q ≠ rel ∧
            fsLookup R'' q = lookupEntries source.entries q)) ∧
        (∀ q, q <+: rel → q ≠ [] → q ≠ rel → fsLookup R'' q = some EntryData.dir) := by
      by_cases hex : existsAt st.replica rel.dropLast = true
      · refine ⟨st.replica, ?_, rfl, ?_, hwf, fun q => Or.inl rfl, ?_⟩
        · rw [ensure_dir_exists, if_neg]
          simp [hex]
        · by_cases hpn : rel.dropLast = []
          · rw [hpn]
            rfl
          · exact isDirAt_iff.mpr (some_dir_of_not_file (by rwa [existsAt] at hex)
              (hpref _ hparpre hpn hparne))
        · intro q hq hq1 hq2
          have hqpar : q <+: rel.dropLast := prefix_dropLast_of_proper hq hq2
          by_cases hqp : q = rel.dropLast
          · subst hqp
            exact some_dir_of_not_file (by rwa [existsAt] at hex) (hpref _ hq hq1 hq2)
          · have hpn : rel.dropLast ≠ [] := by
              intro hc
              rw [hc, List.prefix_nil] at hqpar
              exact hq1 hqpar
            obtain ⟨epar, hepar⟩ := Option.isSome_iff_exists.mp (by rwa [existsAt] at hex)
            rw [fsLookup_ne_root hpn] at hepar
            rw [fsLookup_ne_root hq1]
            exact fswf_lookup_closure hwf hepar hqpar hq1 hqp
      · have hnone : fsLookup st.replica rel.dropLast = none :=
          Option.not_isSome_iff_eq_none.mp (by rwa [existsAt] at hex)
        have hpn : rel.dropLast ≠ [] := by
          intro hc
          rw [hc] at hnone
          exact Option.noConfusion (by rwa [fsLookup] at hnone : (some EntryData.dir : Option EntryData) = none)
        have hnoneE : lookupEntries st.replica.entries rel.dropLast = none := by
          rwa [fsLookup_ne_root hpn] at hnone
        have hexf : existsAt st.replica rel.dropLast = false := by
          rw [existsAt, hnone]
          rfl
        have hlenq : ∀ q, q <+: rel.dropLast → q ≠ rel := by
          intro q hq hc
          subst hc
          have h1 := hq.length_le
          rw [List.length_dropLast] at h1
          have hpos := List.length_pos.mpr hrelne
          omega
        have hnofile : ∀ q ∈ rel.dropLast.inits, q ≠ [] → isFileAt st.replica q = false := by
          intro q hq hq1
          have hqpar := (List.mem_inits q rel.dropLast).mp hq
          exact hpref q (hqpar.trans hparpre) hq1 (hlenq q hqpar)
        have hmk := fsMakedirs_ok hnofile hexf
        have hlk := fsMakedirs_lookup hmk
        refine ⟨_, ?_, ?_, ?_, fswf_fsMakedirs hwf hmk, ?_, ?_⟩
        · rw [ensure_dir_exists, if_pos ⟨by simp [hexf], by simp⟩, hmk]
        · rw [hlk rel, if_neg]
          intro hc
          exact hlenq rel ((List.mem_inits rel rel.dropLast).mp hc.1) rfl
        · rw [isDirAt_iff, hlk rel.dropLast,
            if_pos ⟨(List.mem_inits _ _).mpr List.prefix_rfl, hpn, hnoneE⟩]
        · intro q
          rw [hlk q]
          by_cases hcr : q ∈ rel.dropLast.inits ∧ q ≠ [] ∧
              lookupEntries st.replica.entries q = none
          · rw [if_pos hcr]
            right
            have hqpar := (List.mem_inits q rel.dropLast).mp hcr.1
            have hqrel := hqpar.trans hparpre
            have hqne := hlenq q hqpar
            exact ⟨hqrel, hcr.2.1, hqne,
              (fswf_lookup_closure hwfs hesrc hqrel hcr.2.1 hqne).symm ▸ rfl⟩
          · rw [if_neg hcr]
            exact Or.inl rfl
        · intro q hq hq1 hq2
          have hqpar : q <+: rel.dropLast := prefix_dropLast_of_proper hq hq2
          rw [hlk q]
          by_cases hcr : q ∈ rel.dropLast.inits ∧ q ≠ [] ∧
              lookupEntries st.replica.entries q = none
          · rw [if_pos hcr]
          · rw [if_neg hcr]
            have hsome : (fsLookup st.replica q).isSome = true := by
              rw [fsLookup_ne_root hq1]
              cases hle : lookupEntries st.replica.entries q with
              | none => exact absurd ⟨(List.mem_inits q rel.dropLast).mpr hqpar, hq1, hle⟩ hcr
              | some e => rfl
            exact some_dir_of_not_file hsome (hpref q hq hq1 hq2)
    obtain ⟨R'', hens, hR''rel, hR''par, hR''wf, hR''a, hR''pref⟩ := hstep
    rw [hens]
    have htnd : isDirAt R'' rel = false := by
      rw [isDirAt, beq_eq_false_iff_ne]
      rw [hR''rel]
      exact hreldir
    have hCP : copy2 source R'' rel rel = some (fsSet R'' rel (EntryData.file c m)) := by
      rw [copy2, fsLookup_ne_root hrelne, hsf]
      dsimp only
      rw [htnd]
      simp only [Bool.false_eq_true, if_false]
      rw [if_pos ⟨hR''par, by rw [htnd]; simp⟩]
    have hfun : (fun _ : Nat => (copy2 source R'' rel rel).isSome) = (fun _ => true) := by
      funext i
      rw [hCP]
      rfl
    refine ⟨fsSet R'' rel (EntryData.file c m), ?_, ?_, ?_, ?_⟩
    · dsimp only
      rw [if_neg (by simp), hfun, retry_success_of_pos hretr, hCP]
      rw [copyEventOf, if_neg hdir]
      simp only [List.append_nil]
      rfl
    · rw [fsSet_lookup R'' (EntryData.file c m) hrelne rel, if_pos rfl, hsf]
    · intro q
      rw [fsSet_lookup R'' (EntryData.file c m) hrelne q]
      by_cases hq : q = rel
      · subst hq
        right
        exact ⟨List.prefix_rfl, hrelne, by rw [if_pos rfl, hsf]⟩
      · rw [if_neg hq]
        rcases hR''a q with h | h
        · exact Or.inl h
        · exact Or.inr ⟨h.1, h.2.1, h.2.2.2⟩
    · refine fswf_fsSet hR''wf hrelne ?_ ?_
      · intro q hq hq1 hq2
        exact hR''pref q hq hq1 hq2
      · intro q hq hne
        cases hlq : lookupEntries R''.entries q with
        | none => rfl
        | some e =>
          have hdirrel := fswf_lookup_closure hR''wf hlq hq hrelne hne
          rw [← fsLookup_ne_root hrelne, hR''rel] at hdirrel
          exact absurd hdirrel hreldir

/-! ## Step specification: remove_item -/

/-- Effect of one `remove_item` call on a live run: the outcome is always
normal, exactly one removal event (plus retry noise) is logged, the item and
everything under it is gone afterwards when it existed, nothing outside the
removed subtree changes, and well-formedness is preserved. -/
theorem remove_item_spec {cfg : SyncConfig} {repRoot : String} {st : SyncState}
    {rel : RelPath}
    (hdry : cfg.dry_run = false) (hretr : 1 ≤ cfg.max_retries)
    (hwf : FSWf st.replica) (hrelne : rel ≠ []) :
    ∃ R' noise, remove_item cfg repRoot st rel =
        ⟨⟨R', st.cache, st.events ++ noise ++ [SyncEvent.removed (osJoin repRoot rel)],
          st.updated⟩, none⟩ ∧
      (∀ e ∈ noise, isNoiseEvent e = true) ∧
      (∀ q, fsLookup R' q = fsLookup st.replica q ∨ (rel <+: q ∧ fsLookup R' q = none)) ∧
      (existsAt st.replica rel = true → fsLookup R' rel = none) ∧
      FSWf R' := by
  rw [remove_item, hdry]
  rw [if_neg (by simp)]
  by_cases hdir : isDirAt st.replica rel = true
  · rw [if_pos hdir]
    dsimp only
    rw [retry_success_of_pos hretr]
    refine ⟨fsRemoveTree st.replica rel, [], rfl, by simp, ?_, ?_,
      fswf_fsRemoveTree hwf hrelne⟩
    · intro q
      rw [fsRemoveTree_lookup st.replica hrelne q]
      by_cases hpre : rel.isPrefixOf q
      · rw [if_pos hpre]
        exact Or.inr ⟨List.isPrefixOf_iff_prefix.mp hpre, rfl⟩
      · rw [if_neg hpre]
        exact Or.inl rfl
    · intro _
      rw [fsRemoveTree_lookup st.replica hrelne rel,
        if_pos (List.isPrefixOf_iff_prefix.mpr List.prefix_rfl)]
  · rw [if_neg hdir]
    by_cases hfile : isFileAt st.replica rel = true
    · dsimp only
      rw [show (fun _ : Nat => isFileAt st.replica rel) = (fun _ : Nat => true) from
        funext (fun _ => hfile)]
      rw [retry_success_of_pos hretr]
      refine ⟨fsRemoveFile st.replica rel, [], rfl, by simp, ?_, ?_,
        fswf_fsRemoveFile hwf hrelne (fun hc => hdir (isDirAt_iff.mpr hc))⟩
      · intro q
        rw [fsRemoveFile_lookup st.replica hrelne q]
        by_cases hq : q = rel
        · rw [if_pos hq]
          exact Or.inr ⟨hq ▸ List.prefix_rfl, rfl⟩
        · rw [if_neg hq]
          exact Or.inl rfl
      · intro _
        rw [fsRemoveFile_lookup st.replica hrelne rel, if_pos rfl]
    · dsimp only
      have hres : retry_operation cfg.max_retries "remove"
          (fun _ : Nat => isFileAt st.replica rel) =
          ⟨cfg.max_retries, false,
            ((List.range cfg.max_retries).flatMap
              (fun k => [SyncEvent.retryWarn "remove" (k + 1) cfg.max_retries,
                SyncEvent.sleep 1])) ++ [SyncEvent.permFail "remove"]⟩ := by
        rw [retry_operation,
          retryAux_all_fail _ _ _ _ 0 (fun j _ _ => by simpa using hfile)]
        simp only [Nat.zero_add]
      rw [hres]
      refine ⟨st.replica, _, rfl, ?_, fun q => Or.inl rfl, ?_, hwf⟩
      · intro e he
        apply retry_events_noise cfg.max_retries "remove"
          (fun _ : Nat => isFileAt st.replica rel)
        rw [hres]
        exact he
      · intro hex
        exact absurd (isDirAt_iff.mpr (some_dir_of_not_file (by rwa [existsAt] at hex)
          (by simpa using hfile))) hdir

/-! ## Plan-level lemmas -/

theorem relpath_contains_iff {l : List RelPath} {p : RelPath} :
    l.contains p = true ↔ p ∈ l := by
  simp [List.elem_iff]

theorem mem_scanAll {ip : List String} {fs : FS} (hwf : FSWf fs) {p : RelPath} :
    p ∈ scanAll ip (some fs) ↔
      (lookupEntries fs.entries p).isSome = true ∧ scanOk ip p = true := by
  rw [scanAll]
  exact mem_scan_all hwf

theorem filterMap_key_sublist {g : RelPath × EntryData → Option RelPath}
    (hg : ∀ e p, g e = some p → p = e.1) (l : List (RelPath × EntryData)) :
    (l.filterMap g).Sublist (l.map Prod.fst) := by
  induction l with
  | nil => simp
  | cons e l ih =>
    rw [List.filterMap_cons, List.map_cons]
    cases hge : g e with
    | none => exact ih.cons _
    | some p =>
      rw [hg e p hge]
      exact ih.cons₂ _

theorem scanAll_nodup {ip : List String} {fs : FS} (hwf : FSWf fs) :
    (scanAll ip (some fs)).Nodup := by
  rw [scanAll, List.nodup_append]
  refine ⟨?_, ?_, ?_⟩
  · refine ((filterMap_key_sublist ?_ fs.entries).trans (List.Sublist.refl _)).nodup hwf.1
    intro e p hep
    cases e with
    | mk k d =>
      cases d with
      | dir => exact absurd hep (by simp)
      | file c m =>
        dsimp only at hep
        by_cases hs : scanOk ip k = true
        · rw [if_pos hs] at hep
          cases hep
          rfl
        · rw [if_neg hs] at hep
          exact absurd hep (by simp)
  · refine ((filterMap_key_sublist ?_ fs.entries).trans (List.Sublist.refl _)).nodup hwf.1
    intro e p hep
    cases e with
    | mk k d =>
      cases d with
      | file c m => exact absurd hep (by simp)
      | dir =>
        dsimp only at hep
        by_cases hs : scanOk ip k = true
        · rw [if_pos hs] at hep
          cases hep
          rfl
        · rw [if_neg hs] at hep
          exact absurd hep (by simp)
  · intro p hp1 hp2
    obtain ⟨⟨c, m, hf⟩, _⟩ := (mem_scan_files hwf).mp hp1
    obtain ⟨hd, _⟩ := (mem_scan_dirs hwf).mp hp2
    rw [hf] at hd
    exact Option.noConfusion hd (fun h => EntryData.noConfusion h)

theorem mem_planAdd {ip : List String} {source replica : FS}
    (hwfs : FSWf source) (hwfr : FSWf replica) {p : RelPath} :
    p ∈ planAdd ip source replica ↔
      (lookupEntries source.entries p).isSome = true ∧ scanOk ip p = true ∧
        lookupEntries replica.entries p = none := by
  rw [planAdd, List.mem_filter]
  rw [Bool.not_eq_eq_eq_not, Bool.not_true, ← Bool.not_eq_true, relpath_contains_iff]
  rw [mem_scanAll hwfs, mem_scanAll hwfr]
  constructor
  · rintro ⟨⟨h1, h2⟩, h3⟩
    refine ⟨h1, h2, ?_⟩
    cases hl : lookupEntries replica.entries p with
    | none => rfl
    | some e => exact absurd ⟨by rw [hl]; rfl, h2⟩ h3
  · rintro ⟨h1, h2, h3⟩
    refine ⟨⟨h1, h2⟩, ?_⟩
    rintro ⟨h4, _⟩
    rw [h3] at h4
    exact Bool.noConfusion h4

theorem mem_planRemove {ip : List String} {source replica : FS}
    (hwfs : FSWf source) (hwfr : FSWf replica) {p : RelPath} :
    p ∈ planRemove ip source replica ↔
      (lookupEntries replica.entries p).isSome = true ∧ scanOk ip p = true ∧
        lookupEntries source.entries p = none := by
  rw [planRemove, List.mem_filter]
  rw [Bool.not_eq_eq_eq_not, Bool.not_true, ← Bool.not_eq_true, relpath_contains_iff]
  rw [mem_scanAll hwfs, mem_scanAll hwfr]
  constructor
  · rintro ⟨⟨h1, h2⟩, h3⟩
    refine ⟨h1, h2, ?_⟩
    cases hl : lookupEntries source.entries p with
    | none => rfl
    | some e => exact absurd ⟨by rw [hl]; rfl, h2⟩ h3
  · rintro ⟨h1, h2, h3⟩
    refine ⟨⟨h1, h2⟩, ?_⟩
    rintro ⟨h4, _⟩
    rw [h3] at h4
    exact Bool.noConfusion h4

theorem mem_planBoth {ip : List String} {source replica : FS}
    (hwfs : FSWf source) (hwfr : FSWf replica) {p : RelPath} :
    p ∈ planBoth ip source replica ↔
      (lookupEntries source.entries p).isSome = true ∧ scanOk ip p = true ∧
        (lookupEntries replica.entries p).isSome = true := by
  rw [planBoth, List.mem_filter, relpath_contains_iff]
  rw [mem_scanAll hwfs, mem_scanAll hwfr]
  constructor
  · rintro ⟨⟨h1, h2⟩, h3, _⟩
    exact ⟨h1, h2, h3⟩
  · rintro ⟨h1, h2, h3⟩
    exact ⟨⟨h1, h2⟩, h3, h2⟩

theorem planBoth_nodup {ip : List String} {source replica : FS} (hwfs : FSWf source) :
    (planBoth ip source replica).Nodup :=
  (scanAll_nodup hwfs).filter _

theorem isNoiseEvent_not_info {e : SyncEvent} (h : isNoiseEvent e = true) :
    isInfoEvent e = false := by
  cases e with
  | copyDir d => exact Bool.noConfusion h
  | copyFile d => exact Bool.noConfusion h
  | removed p => exact Bool.noConfusion h
  | retryWarn a b c => rfl
  | sleep s => rfl
  | permFail n => rfl

theorem copyEventOf_info (source : FS) (repRoot : String) (rel : RelPath) :
    isInfoEvent (copyEventOf source repRoot rel) = true := by
  rw [copyEventOf]
  by_cases h : isDirAt source rel = true
  · rw [if_pos h]
    rfl
  · rw [if_neg h]
    rfl

/-! ## Step specification: update_step -/

/-- Effect of one `update_step` call on a live run, when the replica side is
kind-compatible with the source at the item and its ancestors: the outcome is
normal; either the item is copied (one file-copied event, item set to its
source entry) or the state is unchanged apart from the hash cache.  With
caching disabled the cache is unchanged and the copy decision is the pure
metadata/hash comparison of the two scan-time entries. -/
theorem update_step_spec {cfg : SyncConfig} {env : SyncEnv} {source : FS}
    {srcRoot repRoot : String} {st : SyncState} {rel : RelPath}
    (hdry : cfg.dry_run = false) (hretr : 1 ≤ cfg.max_retries)
    (hwfs : FSWf source) (hwf : FSWf st.replica) (hrelne : rel ≠ [])
    (hsrc : (lookupEntries source.entries rel).isSome = true)
    (hnd : isFileAt source rel = true → fsLookup st.replica rel ≠ some EntryData.dir)
    (hpref : ∀ q, q <+: rel → q ≠ [] → q ≠ rel → isFileAt st.replica q = false) :
    ∃ R' cache' copied, update_step cfg env source srcRoot repRoot st rel =
        ⟨⟨R', cache',
          st.events ++ (if copied then [SyncEvent.copyFile (osJoin repRoot rel)] else []),
          st.updated ++ (if copied then [rel] else [])⟩, none⟩ ∧
      (copied = false → R' = st.replica) ∧
      (copied = true → fsLookup R' rel = lookupEntries source.entries rel) ∧
      (∀ q, fsLookup R' q = fsLookup st.replica q ∨
        (q <+: rel ∧ q ≠ [] ∧ fsLookup R' q = lookupEntries source.entries q)) ∧
      FSWf R' ∧
      (cfg.use_hash_cache = false →
        cache' = st.cache ∧
        copied = (isFileAt source rel &&
          decide (files_differ_pure cfg.use_md5 env (fsLookup source rel)
            (fsLookup st.replica rel) = Except.ok true))) := by
  by_cases hfile : isFileAt source rel = true
  · have hrepnd := hnd hfile
    have hsrcf : ∃ c m, fsLookup source rel = some (EntryData.file c m) := isFileAt_iff.mp hfile
    obtain ⟨b, cacheb, hfd⟩ := files_differ_ok cfg env st.cache srcRoot repRoot hsrcf hrepnd
    rw [update_step, if_pos hfile, hfd]
    have hdirf : ¬ isDirAt source rel = true := by
      intro hc
      obtain ⟨c, m, hcm⟩ := hsrcf
      rw [isDirAt_iff, hcm] at hc
      exact Option.noConfusion hc (fun h => EntryData.noConfusion h)
    have hce : copyEventOf source repRoot rel = SyncEvent.copyFile (osJoin repRoot rel) := by
      rw [copyEventOf, if_neg hdirf]
    cases b with
    | true =>
      obtain ⟨R', heq, hrel, hframe, hwf'⟩ :=
        @copy_item_spec cfg source srcRoot repRoot
          ⟨st.replica, cacheb, st.events, st.updated ++ [rel]⟩ rel
          hdry hretr hwfs hwf hrelne hsrc hpref (Or.inr (Or.inr ⟨hfile, hrepnd⟩))
      dsimp only
      refine ⟨R', cacheb, true, ?_, fun h => Bool.noConfusion h, fun _ => hrel, hframe, hwf', ?_⟩
      · rw [heq, hce]
        rfl
      · intro hc
        rw [files_differ_eq_pure hc env st.cache source st.replica rel rel srcRoot repRoot]
          at hfd
        rw [Prod.mk.injEq] at hfd
        refine ⟨hfd.2.symm, ?_⟩
        rw [hfile, Bool.true_and, hfd.1]
        rfl
    | false =>
      dsimp only
      refine ⟨st.replica, cacheb, false, ?_, fun _ => rfl, fun h => Bool.noConfusion h,
        fun q => Or.inl rfl, hwf, ?_⟩
      · simp only [Bool.false_eq_true, if_false, List.append_nil]
      · intro hc
        rw [files_differ_eq_pure hc env st.cache source st.replica rel rel srcRoot repRoot]
          at hfd
        rw [Prod.mk.injEq] at hfd
        refine ⟨hfd.2.symm, ?_⟩
        rw [hfile, Bool.true_and, hfd.1]
        rfl
  · rw [update_step, if_neg hfile]
    have hf : isFileAt source rel = false := by simpa using hfile
    refine ⟨st.replica, st.cache, false, ?_, fun _ => rfl, fun h => Bool.noConfusion h,
      fun q => Or.inl rfl, hwf, fun _ => ⟨rfl, ?_⟩⟩
    · simp only [Bool.false_eq_true, if_false, List.append_nil]
    · rw [hf, Bool.false_and]

/-! ## Loop lemmas -/

theorem runItems_nil (f : SyncState → RelPath → SyncOutcome) (st : SyncState) :
    runItems f st [] = ⟨st, none⟩ := rfl

theorem runItems_cons_none {f : SyncState → RelPath → SyncOutcome} {st st' : SyncState}
    {rel : RelPath} {rest : List RelPath} (h : f st rel = ⟨st', none⟩) :
    runItems f st (rel :: rest) = runItems f st' rest := by
  rw [runItems, h]

theorem isFileAt_false_of_none {fs : FS} {q : RelPath} (h : fsLookup fs q = none) :
    isFileAt fs q = false := by
  rw [isFileAt, h]

theorem isFileAt_false_of_dir {fs : FS} {q : RelPath}
    (h : fsLookup fs q = some EntryData.dir) : isFileAt fs q = false := by
  rw [isFileAt, h]

/-- Under the loop invariant, every strictly smaller nonempty prefix of a
source-present path is not a regular file in the current replica. -/
theorem inv_pref_not_file {ip : List String} {source B R : FS}
    (hwfs : FSWf source) (hcomp : KindCompat B source) (hinv : ReplInv ip source B R)
    {rel : RelPath} {e : EntryData} (hesrc : lookupEntries source.entries rel = some e) :
    ∀ q, q <+: rel → q ≠ [] → q ≠ rel → isFileAt R q = false := by
  intro q hq hq1 hq2
  have hdir : lookupEntries source.entries q = some EntryData.dir :=
    fswf_lookup_closure hwfs hesrc hq hq1 hq2
  rcases hinv q with h | h
  · rw [isFileAt, h]
    cases hB : fsLookup B q with
    | none => rfl
    | some eB =>
      have heB : eB = EntryData.dir := (hcomp q eB EntryData.dir hB hdir).mpr rfl
      subst heB
      rfl
  · exact isFileAt_false_of_dir (by rw [h.2.1, hdir])

/-- Under the loop invariant, the current replica value at a source-present
path is absent, equal to the source entry, or a non-directory under a source
file — the precondition of `copy_item`. -/
theorem inv_copy_ok {ip : List String} {source B R : FS}
    (hcomp : KindCompat B source) (hinv : ReplInv ip source B R)
    {rel : RelPath} (hrelne : rel ≠ [])
    (hsrc : (lookupEntries source.entries rel).isSome = true) :
    fsLookup R rel = none ∨
      fsLookup R rel = lookupEntries source.entries rel ∨
      (isFileAt source rel = true ∧ fsLookup R rel ≠ some EntryData.dir) := by
  obtain ⟨esrc, hesrc⟩ := Option.isSome_iff_exists.mp hsrc
  rcases hinv rel with h | h
  · cases hB : fsLookup B rel with
    | none => exact Or.inl (by rw [h, hB])
    | some eB =>
      cases esrc with
      | dir =>
        have : eB = EntryData.dir := (hcomp rel eB EntryData.dir hB hesrc).mpr rfl
        subst this
        exact Or.inr (Or.inl (by rw [h, hB, hesrc]))
      | file c m =>
        refine Or.inr (Or.inr ⟨?_, ?_⟩)
        · exact isFileAt_iff.mpr ⟨c, m, by rw [fsLookup_ne_root hrelne, hesrc]⟩
        · rw [h, hB]
          intro hc
          injection hc with heB
          exact EntryData.noConfusion ((hcomp rel eB _ hB hesrc).mp heB)
  · exact Or.inr (Or.inl h.2.1)

/-- The remove loop of a live pass: it never aborts, logs one removal event
per item (interleaved with retry noise), deletes every listed item, changes
nothing outside the listed subtrees, and preserves well-formedness. -/
theorem runItems_remove_spec {cfg : SyncConfig} {repRoot : String}
    (hdry : cfg.dry_run = false) (hretr : 1 ≤ cfg.max_retries) :
    ∀ (items : List RelPath) (st : SyncState), (∀ rel ∈ items, rel ≠ []) →
      FSWf st.replica →
      ∃ F E2, runItems (remove_item cfg repRoot) st items =
          ⟨⟨F, st.cache, st.events ++ E2, st.updated⟩, none⟩ ∧
        FSWf F ∧
        E2.filter isInfoEvent = items.map (fun rel => SyncEvent.removed (osJoin repRoot rel)) ∧
        (∀ q, fsLookup F q = fsLookup st.replica q ∨
          ((∃ rel ∈ items, rel <+: q) ∧ fsLookup F q = none)) ∧
        (∀ rel ∈ items, fsLookup F rel = none) := by
  intro items
  induction items with
  | nil =>
    intro st hne hwf
    refine ⟨st.replica, [], ?_, hwf, rfl, fun q => Or.inl rfl, by simp⟩
    rw [List.append_nil]
    rfl
  | cons rel rest ih =>
    intro st hne hwf
    have hrelne := hne rel (List.mem_cons_self rel rest)
    obtain ⟨R', noise, hstep, hnoise, hframe1, hpost1, hwf'⟩ :=
      remove_item_spec hdry hretr hwf hrelne
    obtain ⟨F, E2', hrec, hwfF, hfilt, hframe2, hpost2⟩ :=
      ih ⟨R', st.cache, st.events ++ noise ++ [SyncEvent.removed (osJoin repRoot rel)],
        st.updated⟩ (fun r hr => hne r (List.mem_cons_of_mem rel hr)) hwf'
    refine ⟨F, noise ++ [SyncEvent.removed (osJoin repRoot rel)] ++ E2', ?_, hwfF, ?_, ?_, ?_⟩
    · rw [runItems_cons_none hstep, hrec]
      simp [List.append_assoc]
    · rw [List.filter_append, List.filter_append, hfilt]
      rw [show noise.filter isInfoEvent = [] from
        List.filter_eq_nil_iff.mpr (fun e he => by rw [isNoiseEvent_not_info (hnoise e he)]; simp)]
      simp
      rfl
    · intro q
      rcases hframe2 q with h | h
      · rcases hframe1 q with h' | h'
        · exact Or.inl (h.trans h')
        · exact Or.inr ⟨⟨rel, List.mem_cons_self rel rest, h'.1⟩, h.trans h'.2⟩
      · exact Or.inr ⟨⟨h.1.choose, List.mem_cons_of_mem rel h.1.choose_spec.1,
          h.1.choose_spec.2⟩, h.2⟩
    · intro r hr
      rcases List.mem_cons.mp hr with rfl | hr'
      · by_cases hex : existsAt st.replica r = true
        · have hnone := hpost1 hex
          rcases hframe2 r with h | h
          · exact h.trans hnone
          · exact h.2
        · have hstnone : fsLookup st.replica r = none := by
            rw [existsAt] at hex
            exact Option.not_isSome_iff_eq_none.mp hex
          have hR'none : fsLookup R' r = none := by
            rcases hframe1 r with h | h
            · exact h.trans hstnone
            · exact h.2
          rcases hframe2 r with h | h
          · exact h.trans hR'none
          · exact h.2
      · exact hpost2 r hr'

/-- The add loop of a live pass over source-scanned items, starting from any
state satisfying the loop invariant relative to a kind-compatible baseline
`B`: it never aborts, logs exactly one copy event per item in order, sets
every listed item to its source entry, changes other paths only by creating
source directories above a listed item, and preserves the invariant and
well-formedness. -/
theorem runItems_copy_spec {cfg : SyncConfig} {source : FS} {srcRoot repRoot : String}
    (B : FS)
    (hdry : cfg.dry_run = false) (hretr : 1 ≤ cfg.max_retries) (hwfs : FSWf source)
    (hcomp : KindCompat B source) :
    ∀ (items : List RelPath) (st : SyncState),
      (∀ rel ∈ items, (lookupEntries source.entries rel).isSome = true ∧
        scanOk cfg.ignore_patterns rel = true) →
      FSWf st.replica →
      ReplInv cfg.ignore_patterns source B st.replica →
      ∃ F, runItems (copy_item cfg source srcRoot repRoot) st items =
          ⟨⟨F, st.cache, st.events ++ items.map (copyEventOf source repRoot), st.updated⟩,
            none⟩ ∧
        FSWf F ∧
        ReplInv cfg.ignore_patterns source B F ∧
        (∀ rel ∈ items, fsLookup F rel = lookupEntries source.entries rel) ∧
        (∀ q, fsLookup F q = fsLookup st.replica q ∨
          ((∃ p ∈ items, q <+: p) ∧ q ≠ [] ∧
            fsLookup F q = lookupEntries source.entries q)) := by
  intro items
  induction items with
  | nil =>
    intro st hitems hwf hinv
    refine ⟨st.replica, ?_, hwf, hinv, by simp, fun q => Or.inl rfl⟩
    rw [List.map_nil, List.append_nil]
    rfl
  | cons rel rest ih =>
    intro st hitems hwf hinv
    obtain ⟨hsome, hscan⟩ := hitems rel (List.mem_cons_self rel rest)
    obtain ⟨esrc, hesrc⟩ := Option.isSome_iff_exists.mp hsome
    have hrelne : rel ≠ [] := fswf_no_nil hwfs hsome
    obtain ⟨R', hstep, hrel, hframe1, hwf'⟩ :=
      copy_item_spec hdry hretr hwfs hwf hrelne hsome
        (inv_pref_not_file hwfs hcomp hinv hesrc)
        (inv_copy_ok hcomp hinv hrelne hsome)
    have hinv' : ReplInv cfg.ignore_patterns source B R' := by
      intro q
      rcases hframe1 q with h | h
      · rcases hinv q with h' | h'
        · exact Or.inl (h.trans h')
        · exact Or.inr ⟨h'.1, h.trans h'.2.1, h'.2.2⟩
      · obtain ⟨hqpre, hqne, hqval⟩ := h
        refine Or.inr ⟨hqne, hqval, ?_, scanOk_of_prefix hqpre hscan⟩
        by_cases hqr : q = rel
        · subst hqr
          exact hsome
        · rw [fswf_lookup_closure hwfs hesrc hqpre hqne hqr]
          rfl
    obtain ⟨F, hrec, hwfF, hinvF, hpostF, hframeF⟩ :=
      ih ⟨R', st.cache, st.events ++ [copyEventOf source repRoot rel], st.updated⟩
        (fun r hr => hitems r (List.mem_cons_of_mem rel hr)) hwf' hinv'
    refine ⟨F, ?_, hwfF, hinvF, ?_, ?_⟩
    · rw [runItems_cons_none hstep, hrec]
      simp [List.append_assoc]
    · intro r hr
      rcases List.mem_cons.mp hr with rfl | hr'
      · rcases hframeF r with h | h
        · exact h.trans hrel
        · exact h.2.2
      · exact hpostF r hr'
    · intro q
      rcases hframeF q with h | h
      · rcases hframe1 q with h' | h'
        · exact Or.inl (h.trans h')
        · exact Or.inr ⟨⟨rel, List.mem_cons_self rel rest, h'.1⟩, h'.2.1, h.trans h'.2.2⟩
      · exact Or.inr ⟨⟨h.1.choose, List.mem_cons_of_mem rel h.1.choose_spec.1,
          h.1.choose_spec.2⟩, h.2.1, h.2.2⟩

/-- The update loop of a live pass over duplicate-free source-scanned items
whose replica side still holds its baseline value: it never aborts, copies a
sub-collection `U` of the items (one file-copied event and one `updated`
entry each, in order), preserves the invariant and well-formedness, and —
with hash caching disabled — leaves the cache untouched and copies exactly
the items whose source side is a file differing from the baseline entry. -/
theorem runItems_update_spec {cfg : SyncConfig} {env : SyncEnv} {source : FS}
    {srcRoot repRoot : String} (B : FS)
    (hdry : cfg.dry_run = false) (hretr : 1 ≤ cfg.max_retries) (hwfs : FSWf source)
    (hcomp : KindCompat B source) :
    ∀ (items : List RelPath) (st : SyncState), items.Nodup →
      (∀ rel ∈ items, (lookupEntries source.entries rel).isSome = true ∧
        scanOk cfg.ignore_patterns rel = true) →
      (∀ rel ∈ items, isFileAt source rel = true →
        fsLookup st.replica rel = fsLookup B rel) →
      FSWf st.replica →
      ReplInv cfg.ignore_patterns source B st.replica →
      ∃ F cacheF U, runItems (update_step cfg env source srcRoot repRoot) st items =
          ⟨⟨F, cacheF, st.events ++ U.map (fun p => SyncEvent.copyFile (osJoin repRoot p)),
            st.updated ++ U⟩, none⟩ ∧
        U.Sublist items ∧
        FSWf F ∧
        ReplInv cfg.ignore_patterns source B F ∧
        (∀ q, fsLookup F q = fsLookup st.replica q ∨
          ((∃ p ∈ U, q <+: p) ∧ q ≠ [] ∧ fsLookup F q = lookupEntries source.entries q)) ∧
        (∀ p ∈ U, fsLookup F p = lookupEntries source.entries p) ∧
        (cfg.use_hash_cache = false → cacheF = st.cache ∧
          U = items.filter (fun p => isFileAt source p &&
            decide (files_differ_pure cfg.use_md5 env (fsLookup source p) (fsLookup B p) =
              Except.ok true))) := by
  intro items
  induction items with
  | nil =>
    intro st _ _ _ hwf hinv
    refine ⟨st.replica, st.cache, [], ?_, List.nil_sublist _, hwf, hinv,
      fun q => Or.inl rfl, by simp, fun _ => ⟨rfl, rfl⟩⟩
    rw [List.map_nil, List.append_nil, List.append_nil]
    rfl
  | cons rel rest ih =>
    intro st hnd hitems hcur hwf hinv
    obtain ⟨hsome, hscan⟩ := hitems rel (List.mem_cons_self rel rest)
    obtain ⟨esrc, hesrc⟩ := Option.isSome_iff_exists.mp hsome
    have hrelne : rel ≠ [] := fswf_no_nil hwfs hsome
    have hndrel : isFileAt source rel = true →
        fsLookup st.replica rel ≠ some EntryData.dir := by
      intro hfile hc
      have hcr := hcur rel (List.mem_cons_self rel rest) hfile
      rw [hcr] at hc
      obtain ⟨c, m, hcm⟩ := isFileAt_iff.mp hfile
      rw [fsLookup_ne_root hrelne] at hcm
      exact EntryData.noConfusion ((hcomp rel EntryData.dir _ hc hcm).mp rfl)
    obtain ⟨R', cache', copied, hstep, hnotc, hcop, hframe1, hwf1, hcoff1⟩ :=
      update_step_spec hdry hretr hwfs hwf hrelne hsome hndrel
        (inv_pref_not_file hwfs hcomp hinv hesrc)
    have hinv1 : ReplInv cfg.ignore_patterns source B R' := by
      intro q
      rcases hframe1 q with h | h
      · rcases hinv q with h' | h'
        · exact Or.inl (h.trans h')
        · exact Or.inr ⟨h'.1, h.trans h'.2.1, h'.2.2⟩
      · obtain ⟨hqpre, hqne, hqval⟩ := h
        refine Or.inr ⟨hqne, hqval, ?_, scanOk_of_prefix hqpre hscan⟩
        by_cases hqr : q = rel
        · subst hqr
          exact hsome
        · rw [fswf_lookup_closure hwfs hesrc hqpre hqne hqr]
          rfl
    have hrelnotrest : rel ∉ rest := (List.nodup_cons.mp hnd).1
    have hcur1 : ∀ r ∈ rest, isFileAt source r = true → fsLookup R' r = fsLookup B r := by
      intro r hr hfile
      rcases hframe1 r with h | h
      · rw [h]
        exact hcur r (List.mem_cons_of_mem rel hr) hfile
      · obtain ⟨hrpre, hrne, hrval⟩ := h
        by_cases hrr : r = rel
        · subst hrr
          exact absurd hr hrelnotrest
        · have hdd := fswf_lookup_closure hwfs hesrc hrpre hrne hrr
          obtain ⟨c, m, hcm⟩ := isFileAt_iff.mp hfile
          rw [fsLookup_ne_root hrne] at hcm
          rw [hdd] at hcm
          simp at hcm
    cases copied with
    | true =>
      have hrelval := hcop rfl
      rw [if_pos rfl, if_pos rfl] at hstep
      obtain ⟨F, cacheF, U', hrec, hsub, hwfF, hinvF, hframeF, hupost, hcoffF⟩ :=
        ih ⟨R', cache', st.events ++ [SyncEvent.copyFile (osJoin repRoot rel)],
          st.updated ++ [rel]⟩ (List.nodup_cons.mp hnd).2
          (fun r hr => hitems r (List.mem_cons_of_mem rel hr)) hcur1 hwf1 hinv1
      refine ⟨F, cacheF, rel :: U', ?_, hsub.cons₂ rel, hwfF, hinvF, ?_, ?_, ?_⟩
      · rw [runItems_cons_none hstep, hrec]
        simp [List.append_assoc]
      · intro q
        rcases hframeF q with h | h
        · rcases hframe1 q with h' | h'
          · exact Or.inl (h.trans h')
          · exact Or.inr ⟨⟨rel, List.mem_cons_self _ _, h'.1⟩, h'.2.1, h.trans h'.2.2⟩
        · exact Or.inr ⟨⟨h.1.choose, List.mem_cons_of_mem rel h.1.choose_spec.1,
            h.1.choose_spec.2⟩, h.2.1, h.2.2⟩
      · intro p hp
        rcases List.mem_cons.mp hp with rfl | hp'
        · rcases hframeF p with h | h
          · exact h.trans hrelval
          · exact h.2.2
        · exact hupost p hp'
      · intro hcache
        obtain ⟨hc1, hc2⟩ := hcoff1 hcache
        obtain ⟨hcF1, hcF2⟩ := hcoffF hcache
        subst hc1
        refine ⟨hcF1, ?_⟩
        have hc2s := hc2.symm
        rw [Bool.and_eq_true] at hc2s
        obtain ⟨hfile, hdec⟩ := hc2s
        have hc2' : (isFileAt source rel && decide (files_differ_pure cfg.use_md5 env
            (fsLookup source rel) (fsLookup B rel) = Except.ok true)) = true := by
          rw [hfile, Bool.true_and,
            ← hcur rel (List.mem_cons_self rel rest) hfile]
          exact hdec
        simp [List.filter_cons, hc2', hcF2]
    | false =>
      have hR'eq := hnotc rfl
      subst hR'eq
      rw [if_neg (by simp), if_neg (by simp)] at hstep
      rw [List.append_nil, List.append_nil] at hstep
      obtain ⟨F, cacheF, U', hrec, hsub, hwfF, hinvF, hframeF, hupost, hcoffF⟩ :=
        ih ⟨st.replica, cache', st.events, st.updated⟩ (List.nodup_cons.mp hnd).2
          (fun r hr => hitems r (List.mem_cons_of_mem rel hr))
          (fun r hr hf => hcur r (List.mem_cons_of_mem rel hr) hf) hwf1 hinv1
      refine ⟨F, cacheF, U', ?_, hsub.cons rel, hwfF, hinvF, ?_, hupost, ?_⟩
      · rw [runItems_cons_none hstep, hrec]
      · intro q
        exact hframeF q
      · intro hcache
        obtain ⟨hc1, hc2⟩ := hcoff1 hcache
        obtain ⟨hcF1, hcF2⟩ := hcoffF hcache
        subst hc1
        refine ⟨hcF1, ?_⟩
        have hc2' : (isFileAt source rel && decide (files_differ_pure cfg.use_md5 env
            (fsLookup source rel) (fsLookup B rel) = Except.ok true)) = false := by
          by_cases hfile : isFileAt source rel = true
          · rw [hfile, Bool.true_and] at hc2 ⊢
            rw [← hcur rel (List.mem_cons_self rel rest) hfile]
            exact hc2.symm
          · rw [show isFileAt source rel = false from by simpa using hfile, Bool.false_and]
        simp [List.filter_cons, hc2', hcF2]

/-- `synchronize` unfolded: scan algebra expressed through the plan
definitions, then the three loops in program order, then the cache flush. -/
theorem synchronize_eq (cfg : SyncConfig) (env : SyncEnv) (srcRoot repRoot : String)
    (source : FS) (st0 : SyncState) :
    synchronize cfg env srcRoot repRoot source st0 =
      (let o1 := runItems (copy_item cfg source srcRoot repRoot) st0
        (planAdd cfg.ignore_patterns source st0.replica)
       let o2 := match o1.exc with
         | some _ => o1
         | none => runItems (remove_item cfg repRoot) o1.state
             (planRemove cfg.ignore_patterns source st0.replica)
       let o3 := match o2.exc with
         | some _ => o2
         | none => runItems (update_step cfg env source srcRoot repRoot) o2.state
             (planBoth cfg.ignore_patterns source st0.replica)
       let cacheFile := EntryData.file (env.cacheBytes o3.state.cache) env.now
       let final := if o3.exc = none ∧ cfg.use_hash_cache ∧ ¬ cfg.dry_run then
           { o3.state with replica := fsSet o3.state.replica hash_cache_rel cacheFile }
         else o3.state
       ⟨planAdd cfg.ignore_patterns source st0.replica,
        planRemove cfg.ignore_patterns source st0.replica,
        planBoth cfg.ignore_patterns source st0.replica, final, o3.exc⟩) := rfl

/-- The pure comparison never raises when the source side is a regular file
and the replica side is not a directory. -/
theorem files_differ_pure_ok {u : Bool} {env : SyncEnv} {c : List Nat} {m : ℚ}
    {re : Option EntryData} (hre : re ≠ some EntryData.dir) :
    ∃ b, files_differ_pure u env (some (EntryData.file c m)) re = Except.ok b := by
  cases re with
  | none => exact ⟨true, rfl⟩
  | some re' =>
    cases re' with
    | dir => exact absurd rfl hre
    | file c' m' =>
      rw [files_differ_pure]
      by_cases hmd : u = true
      · rw [if_pos hmd]
        exact ⟨_, rfl⟩
      · rw [if_neg hmd]
        by_cases h1 : statSize (EntryData.file c m) ≠ statSize (EntryData.file c' m')
        · rw [if_pos h1]
          exact ⟨true, rfl⟩
        · rw [if_neg h1]
          by_cases h2 : 1 < pyAbsDiff (statMtime (EntryData.file c m))
              (statMtime (EntryData.file c' m'))
          · rw [if_pos h2]
            exact ⟨true, rfl⟩
          · rw [if_neg h2]
            exact ⟨false, rfl⟩

/-- Master specification of one live `synchronize` pass without kind
conflicts: the pass never aborts; the plans are the scan set algebra; the
events are the add-copy events, then the removals (with retry noise), then
the update copies; after the loops the replica is well-formed and agrees
with the source scan in kind everywhere the scan looks; and with hash
caching disabled the cache is untouched and the updated items are exactly
the in-both source files whose pure comparison against the initial replica
differs. -/
theorem synchronize_spec (cfg : SyncConfig) (env : SyncEnv) (srcRoot repRoot : String)
    (source : FS) (st0 : SyncState)
    (hdry : cfg.dry_run = false) (hretr : 1 ≤ cfg.max_retries)
    (hwfs : FSWf source) (hwf0 : FSWf st0.replica)
    (hconf : ConflictFree source st0.replica) :
    ∃ F cacheF E2 U,
      synchronize cfg env srcRoot repRoot source st0 =
        ⟨planAdd cfg.ignore_patterns source st0.replica,
         planRemove cfg.ignore_patterns source st0.replica,
         planBoth cfg.ignore_patterns source st0.replica,
         ⟨(if cfg.use_hash_cache = true then
             fsSet F hash_cache_rel (EntryData.file (env.cacheBytes cacheF) env.now)
           else F),
          cacheF,
          st0.events ++
            (planAdd cfg.ignore_patterns source st0.replica).map
              (copyEventOf source repRoot) ++ E2 ++
            U.map (fun p => SyncEvent.copyFile (osJoin repRoot p)),
          st0.updated ++ U⟩,
         none⟩ ∧
      E2.filter isInfoEvent =
        (planRemove cfg.ignore_patterns source st0.replica).map
          (fun p => SyncEvent.removed (osJoin repRoot p)) ∧
      U.Sublist (planBoth cfg.ignore_patterns source st0.replica) ∧
      FSWf F ∧
      (∀ p, scanOk cfg.ignore_patterns p = true → p ≠ [] →
        (lookupEntries source.entries p = some EntryData.dir →
          fsLookup F p = some EntryData.dir) ∧
        (∀ c m, lookupEntries source.entries p = some (EntryData.file c m) →
          ∃ c' m', fsLookup F p = some (EntryData.file c' m')) ∧
        (lookupEntries source.entries p = none → fsLookup F p = none)) ∧
      (cfg.use_hash_cache = false →
        cacheF = st0.cache ∧
        U = (planBoth cfg.ignore_patterns source st0.replica).filter
          (fun p => isFileAt source p && decide (files_differ_pure cfg.use_md5 env
            (fsLookup source p) (fsLookup st0.replica p) = Except.ok true)) ∧
        (∀ p c m, lookupEntries source.entries p = some (EntryData.file c m) →
          scanOk cfg.ignore_patterns p = true →
          fsLookup F p = some (EntryData.file c m) ∨
          files_differ_pure cfg.use_md5 env (fsLookup source p) (fsLookup F p) =
            Except.ok false)) := by
  have hcomp0 : KindCompat st0.replica source := by
    intro q e e' hq hq'
    by_cases hqne : q = []
    · subst hqne
      rw [lookupEntries_nil_key hwfs.2.1] at hq'
      exact absurd hq' (by simp)
    · rw [fsLookup_ne_root hqne] at hq
      exact (conflictfree_lookup hconf hq' hq).symm
  obtain ⟨R1, h1eq, h1wf, h1inv, h1post, h1frame⟩ :=
    runItems_copy_spec st0.replica hdry hretr hwfs hcomp0
      (planAdd cfg.ignore_patterns source st0.replica) st0
      (fun rel hrel => ⟨((mem_planAdd hwfs hwf0).mp hrel).1,
        ((mem_planAdd hwfs hwf0).mp hrel).2.1⟩)
      hwf0 (fun q => Or.inl rfl)
  obtain ⟨R2, E2, h2eq, h2wf, h2filt, h2frame, h2post⟩ :=
    runItems_remove_spec hdry hretr (planRemove cfg.ignore_patterns source st0.replica)
      ⟨R1, st0.cache, st0.events ++ (planAdd cfg.ignore_patterns source st0.replica).map
        (copyEventOf source repRoot), st0.updated⟩
      (fun rel hrel => fswf_no_nil hwf0 ((mem_planRemove hwfs hwf0).mp hrel).1)
      h1wf
  have hnotunder : ∀ q, (lookupEntries source.entries q).isSome = true →
      ∀ rel ∈ planRemove cfg.ignore_patterns source st0.replica, ¬ rel <+: q := by
    intro q hqs rel hrel hpre
    obtain ⟨hr1, hr2, hr3⟩ := (mem_planRemove hwfs hwf0).mp hrel
    have hrelne : rel ≠ [] := fswf_no_nil hwf0 hr1
    by_cases hrq : rel = q
    · subst hrq
      rw [hr3] at hqs
      exact Bool.noConfusion hqs
    · obtain ⟨eq', heq'⟩ := Option.isSome_iff_exists.mp hqs
      rw [fswf_lookup_closure hwfs heq' hpre hrelne hrq] at hr3
      exact Option.noConfusion hr3
  have h2frame' : ∀ q, (lookupEntries source.entries q).isSome = true →
      fsLookup R2 q = fsLookup R1 q := by
    intro q hqs
    rcases h2frame q with h | h
    · exact h
    · obtain ⟨⟨rel, hrel, hpre⟩, _⟩ := h
      exact absurd hpre (hnotunder q hqs rel hrel)
  have hcomp2 : KindCompat R2 source := by
    intro q e e' hq hq'
    have hq2 := h2frame' q (by rw [hq']; rfl)
    rw [hq2] at hq
    rcases h1inv q with h' | h'
    · rw [h'] at hq
      exact hcomp0 q e e' hq hq'
    · rw [h'.2.1] at hq
      rw [hq'] at hq
      injection hq with hq
      subst hq
      exact Iff.rfl
  have hstable : ∀ rel ∈ planBoth cfg.ignore_patterns source st0.replica,
      isFileAt source rel = true → fsLookup R2 rel = fsLookup st0.replica rel := by
    intro rel hrel hfile
    obtain ⟨hs1, hs2, hs3⟩ := (mem_planBoth hwfs hwf0).mp hrel
    have h21 := h2frame' rel hs1
    rcases h1frame rel with h | h
    · rw [h21, h]
    · obtain ⟨⟨p, hpA, hpre⟩, hne, hval⟩ := h
      by_cases hrp : rel = p
      · subst hrp
        obtain ⟨_, _, hnone⟩ := (mem_planAdd hwfs hwf0).mp hpA
        rw [hnone] at hs3
        exact Bool.noConfusion hs3
      · obtain ⟨hpsome, _, _⟩ := (mem_planAdd hwfs hwf0).mp hpA
        obtain ⟨ep, hep⟩ := Option.isSome_iff_exists.mp hpsome
        have hdd := fswf_lookup_closure hwfs hep hpre hne hrp
        obtain ⟨c, m, hcm⟩ := isFileAt_iff.mp hfile
        rw [fsLookup_ne_root hne, hdd] at hcm
        simp at hcm
  obtain ⟨F, cacheF, U, h3eq, h3sub, h3wf, h3inv, h3frame, h3post, h3coff⟩ :=
    runItems_update_spec R2 hdry hretr hwfs hcomp2
      (planBoth cfg.ignore_patterns source st0.replica)
      ⟨R2, st0.cache, st0.events ++ (planAdd cfg.ignore_patterns source st0.replica).map
        (copyEventOf source repRoot) ++ E2, st0.updated⟩
      (planBoth_nodup hwfs)
      (fun rel hrel => ⟨((mem_planBoth hwfs hwf0).mp hrel).1,
        ((mem_planBoth hwfs hwf0).mp hrel).2.1⟩)
      (fun rel hrel hf => rfl)
      h2wf (fun q => Or.inl rfl)
  have hFsAll : ∀ p, (lookupEntries source.entries p).isSome = true →
      scanOk cfg.ignore_patterns p = true →
      (fsLookup F p = lookupEntries source.entries p ∨
        (fsLookup F p = fsLookup st0.replica p ∧
          (lookupEntries st0.replica.entries p).isSome = true)) := by
    intro p hps hpsc
    have h21 := h2frame' p hps
    by_cases hrep : (lookupEntries st0.replica.entries p).isSome = true
    · rcases h3inv p with h | h
      · rw [h, h21]
        rcases h1inv p with h' | h'
        · exact Or.inr ⟨h', hrep⟩
        · exact Or.inl h'.2.1
      · exact Or.inl h.2.1
    · have hpA : p ∈ planAdd cfg.ignore_patterns source st0.replica :=
        (mem_planAdd hwfs hwf0).mpr ⟨hps, hpsc,
          Option.not_isSome_iff_eq_none.mp (by simpa using hrep)⟩
      have h1p := h1post p hpA
      rcases h3inv p with h | h
      · rw [h, h21, h1p]
        exact Or.inl rfl
      · exact Or.inl h.2.1
  refine ⟨F, cacheF, E2, U, ?_, h2filt, h3sub, h3wf, ?_, ?_⟩
  · rw [synchronize_eq, h1eq]
    dsimp only
    rw [h2eq]
    dsimp only
    rw [h3eq]
    dsimp only
    rw [hdry]
    by_cases hch : cfg.use_hash_cache = true
    · rw [if_pos ⟨rfl, hch, by simp⟩, if_pos hch]
    · rw [if_neg (fun hc => hch hc.2.1), if_neg hch]
  · intro p hpsc hpne
    refine ⟨?_, ?_, ?_⟩
    · intro hdirp
      rcases hFsAll p (by rw [hdirp]; rfl) hpsc with h | h
      · rw [h, hdirp]
      · obtain ⟨hF0, hrep⟩ := h
        obtain ⟨e0, he0⟩ := Option.isSome_iff_exists.mp hrep
        have he0d : e0 = EntryData.dir :=
          (hcomp0 p e0 EntryData.dir (by rw [fsLookup_ne_root hpne]; exact he0) hdirp).mpr rfl
        subst he0d
        rw [hF0, fsLookup_ne_root hpne, he0]
    · intro c m hfp
      rcases hFsAll p (by rw [hfp]; rfl) hpsc with h | h
      · exact ⟨c, m, by rw [h, hfp]⟩
      · obtain ⟨hF0, hrep⟩ := h
        obtain ⟨e0, he0⟩ := Option.isSome_iff_exists.mp hrep
        cases e0 with
        | dir =>
          have hcd := (hcomp0 p EntryData.dir _
            (by rw [fsLookup_ne_root hpne]; exact he0) hfp).mp rfl
          exact absurd hcd (fun hh => EntryData.noConfusion hh)
        | file c' m' =>
          exact ⟨c', m', by rw [hF0, fsLookup_ne_root hpne, he0]⟩
    · intro hnp
      have hFp : fsLookup F p = fsLookup R2 p := by
        rcases h3inv p with h | h
        · exact h
        · exact absurd h.2.2.1 (by rw [hnp]; simp)
      have hR1p : fsLookup R1 p = fsLookup st0.replica p := by
        rcases h1inv p with h | h
        · exact h
        · exact absurd h.2.2.1 (by rw [hnp]; simp)
      by_cases hrep : (lookupEntries st0.replica.entries p).isSome = true
      · have hpD : p ∈ planRemove cfg.ignore_patterns source st0.replica :=
          (mem_planRemove hwfs hwf0).mpr ⟨hrep, hpsc, hnp⟩
        rw [hFp]
        exact h2post p hpD
      · have h0 : fsLookup st0.replica p = none := by
          rw [fsLookup_ne_root hpne]
          exact Option.not_isSome_iff_eq_none.mp (by simpa using hrep)
        rcases h2frame p with h | h
        · exact hFp.trans (h.trans (hR1p.trans h0))
        · exact hFp.trans h.2
  · intro hcache
    obtain ⟨hcF, hUform⟩ := h3coff hcache
    refine ⟨hcF, ?_, ?_⟩
    · rw [hUform]
      refine List.filter_congr ?_
      intro p hp
      dsimp only
      by_cases hfile : isFileAt source p = true
      · rw [hfile, Bool.true_and, Bool.true_and, hstable p hp hfile]
      · rw [show isFileAt source p = false from by simpa using hfile]
        rw [Bool.false_and, Bool.false_and]
    · intro p c m hcm hpsc
      have hps : (lookupEntries source.entries p).isSome = true := by
        rw [hcm]
        rfl
      have hpne : p ≠ [] := fswf_no_nil hwfs hps
      have hsrcfp : fsLookup source p = some (EntryData.file c m) := by
        rw [fsLookup_ne_root hpne]
        exact hcm
      have hfile : isFileAt source p = true := isFileAt_iff.mpr ⟨c, m, hsrcfp⟩
      rcases hFsAll p hps hpsc with h | h
      · exact Or.inl (by rw [h, hcm])
      · obtain ⟨hF0, hrep⟩ := h
        have hpB : p ∈ planBoth cfg.ignore_patterns source st0.replica :=
          (mem_planBoth hwfs hwf0).mpr ⟨hps, hpsc, hrep⟩
        by_cases hpU : p ∈ U
        · exact Or.inl (by rw [h3post p hpU, hcm])
        · have hpredf : (isFileAt source p && decide (files_differ_pure cfg.use_md5 env
              (fsLookup source p) (fsLookup R2 p) = Except.ok true)) = false := by
            cases hpred : (isFileAt source p && decide (files_differ_pure cfg.use_md5 env
              (fsLookup source p) (fsLookup R2 p) = Except.ok true)) with
            | false => rfl
            | true =>
              refine absurd ?_ hpU
              rw [hUform, List.mem_filter]
              exact ⟨hpB, hpred⟩
          rw [hfile, Bool.true_and] at hpredf
          have hne' : files_differ_pure cfg.use_md5 env (fsLookup source p)
              (fsLookup R2 p) ≠ Except.ok true := by
            intro hc
            rw [hc] at hpredf
            simp at hpredf
          have hR2nd : fsLookup R2 p ≠ some EntryData.dir := by
            intro hc
            exact EntryData.noConfusion ((hcomp2 p EntryData.dir _ hc hcm).mp rfl)
          obtain ⟨b, hb⟩ := files_differ_pure_ok (c := c) (m := m) hR2nd
          have hb' : files_differ_pure cfg.use_md5 env (fsLookup source p)
              (fsLookup R2 p) = Except.ok b := by
            rw [hsrcfp]
            exact hb
          cases b with
          | true => exact absurd hb' hne'
          | false =>
            right
            rw [hF0, ← hstable p hpB hfile]
            exact hb'

/-! ## Dry-run behaviour -/

/-- In dry-run mode `copy_item` only logs: no directory creation, no copy. -/
theorem copy_item_dry {cfg : SyncConfig} (hdry : cfg.dry_run = true)
    (source : FS) (srcRoot repRoot : String) (st : SyncState) (rel : RelPath) :
    copy_item cfg source srcRoot repRoot st rel =
      ⟨⟨st.replica, st.cache, st.events ++ [copyEventOf source repRoot rel], st.updated⟩,
        none⟩ := by
  rw [copy_item, hdry]
  by_cases hdir : isDirAt source rel = true
  · rw [if_pos hdir]
    rw [show ensure_dir_exists true st.replica rel = Except.ok st.replica from by
      rw [ensure_dir_exists, if_neg (by simp)]]
    rw [copyEventOf, if_pos hdir]
  · rw [if_neg hdir]
    rw [show ensure_dir_exists true st.replica rel.dropLast = Except.ok st.replica from by
      rw [ensure_dir_exists, if_neg (by simp)]]
    rw [copyEventOf, if_neg hdir]
    dsimp only
    rw [if_pos rfl]

/-- In dry-run mode `remove_item` only logs. -/
theorem remove_item_dry {cfg : SyncConfig} (hdry : cfg.dry_run = true)
    (repRoot : String) (st : SyncState) (rel : RelPath) :
    remove_item cfg repRoot st rel =
      ⟨⟨st.replica, st.cache, st.events ++ [SyncEvent.removed (osJoin repRoot rel)],
        st.updated⟩, none⟩ := by
  rw [remove_item, hdry, if_pos rfl]

/-- In dry-run mode with caching off, `update_step` logs a copy exactly when
the pure comparison of the two entries differs, and never mutates the
replica or the cache. -/
theorem update_step_dry {cfg : SyncConfig} (env : SyncEnv) (source : FS)
    (srcRoot repRoot : String) (st : SyncState) (rel : RelPath)
    (hdry : cfg.dry_run = true) (hcache : cfg.use_hash_cache = false)
    (hnd : isFileAt source rel = true → fsLookup st.replica rel ≠ some EntryData.dir) :
    update_step cfg env source srcRoot repRoot st rel =
      (if (isFileAt source rel && decide (files_differ_pure cfg.use_md5 env
          (fsLookup source rel) (fsLookup st.replica rel) = Except.ok true)) then
        ⟨⟨st.replica, st.cache,
          st.events ++ [SyncEvent.copyFile (osJoin repRoot rel)], st.updated ++ [rel]⟩, none⟩
      else ⟨st, none⟩) := by
  by_cases hfile : isFileAt source rel = true
  · have hsrcf := isFileAt_iff.mp hfile
    have hdirf : ¬ isDirAt source rel = true := by
      intro hc
      obtain ⟨c, m, hcm⟩ := hsrcf
      rw [isDirAt_iff, hcm] at hc
      exact Option.noConfusion hc (fun h => EntryData.noConfusion h)
    obtain ⟨b, cacheb, hfd⟩ := files_differ_ok cfg env st.cache srcRoot repRoot
      hsrcf (hnd hfile)
    have hfd2 := hfd
    rw [files_differ_eq_pure hcache env st.cache source st.replica rel rel srcRoot repRoot]
      at hfd2
    rw [Prod.mk.injEq] at hfd2
    rw [update_step, if_pos hfile, hfd, hfile, Bool.true_and, hfd2.1]
    cases b with
    | true =>
      rw [if_pos (by simp)]
      dsimp only
      rw [copy_item_dry hdry]
      rw [copyEventOf, if_neg hdirf, ← hfd2.2]
    | false =>
      rw [if_neg (by simp)]
      dsimp only
      rw [← hfd2.2]
  · have hf : isFileAt source rel = false := by simpa using hfile
    rw [update_step, if_neg hfile, hf, Bool.false_and, if_neg (by simp)]

/-- The dry-run add loop: one copy event per item, nothing else. -/
theorem runItems_copy_dry {cfg : SyncConfig} {source : FS} {srcRoot repRoot : String}
    (hdry : cfg.dry_run = true) :
    ∀ (items : List RelPath) (st : SyncState),
      runItems (copy_item cfg source srcRoot repRoot) st items =
        ⟨⟨st.replica, st.cache, st.events ++ items.map (copyEventOf source repRoot),
          st.updated⟩, none⟩ := by
  intro items
  induction items with
  | nil =>
    intro st
    rw [List.map_nil, List.append_nil]
    rfl
  | cons rel rest ih =>
    intro st
    rw [runItems_cons_none (copy_item_dry hdry source srcRoot repRoot st rel), ih]
    simp [List.append_assoc]

/-- The dry-run remove loop: one removal event per item, nothing else. -/
theorem runItems_remove_dry {cfg : SyncConfig} {repRoot : String}
    (hdry : cfg.dry_run = true) :
    ∀ (items : List RelPath) (st : SyncState),
      runItems (remove_item cfg repRoot) st items =
        ⟨⟨st.replica, st.cache,
          st.events ++ items.map (fun p => SyncEvent.removed (osJoin repRoot p)),
          st.updated⟩, none⟩ := by
  intro items
  induction items with
  | nil =>
    intro st
    rw [List.map_nil, List.append_nil]
    rfl
  | cons rel rest ih =>
    intro st
    rw [runItems_cons_none (remove_item_dry hdry repRoot st rel), ih]
    simp [List.append_assoc]

/-- The dry-run update loop with caching off: a copy event and an `updated`
entry for exactly the differing source files; no replica or cache change. -/
theorem runItems_update_dry {cfg : SyncConfig} {env : SyncEnv} {source : FS}
    {srcRoot repRoot : String}
    (hdry : cfg.dry_run = true) (hcache : cfg.use_hash_cache = false) :
    ∀ (items : List RelPath) (st : SyncState),
      (∀ rel ∈ items, isFileAt source rel = true →
        fsLookup st.replica rel ≠ some EntryData.dir) →
      runItems (update_step cfg env source srcRoot repRoot) st items =
        ⟨⟨st.replica, st.cache,
          st.events ++ (items.filter (fun p => isFileAt source p &&
            decide (files_differ_pure cfg.use_md5 env (fsLookup source p)
              (fsLookup st.replica p) = Except.ok true))).map
            (fun p => SyncEvent.copyFile (osJoin repRoot p)),
          st.updated ++ items.filter (fun p => isFileAt source p &&
            decide (files_differ_pure cfg.use_md5 env (fsLookup source p)
              (fsLookup st.replica p) = Except.ok true))⟩, none⟩ := by
  intro items
  induction items with
  | nil =>
    intro st _
    rw [List.filter_nil, List.map_nil, List.append_nil, List.append_nil]
    rfl
  | cons rel rest ih =>
    intro st hnd
    have hstep := update_step_dry env source srcRoot repRoot st rel hdry hcache
      (hnd rel (List.mem_cons_self rel rest))
    rw [List.filter_cons]
    by_cases hpred : (isFileAt source rel && decide (files_differ_pure cfg.use_md5 env
        (fsLookup source rel) (fsLookup st.replica rel) = Except.ok true)) = true
    · rw [if_pos hpred] at hstep ⊢
      rw [runItems_cons_none hstep,
        ih ⟨st.replica, st.cache, st.events ++ [SyncEvent.copyFile (osJoin repRoot rel)],
          st.updated ++ [rel]⟩ (fun r hr => hnd r (List.mem_cons_of_mem rel hr))]
      simp [List.append_assoc]
    · rw [if_neg hpred] at hstep ⊢
      rw [runItems_cons_none hstep,
        ih st (fun r hr => hnd r (List.mem_cons_of_mem rel hr))]

/-- A loop whose every step is a no-op leaves the state unchanged. -/
theorem runItems_noop {f : SyncState → RelPath → SyncOutcome} {st : SyncState} :
    ∀ items : List RelPath, (∀ rel ∈ items, f st rel = ⟨st, none⟩) →
      runItems f st items = ⟨st, none⟩ := by
  intro items
  induction items with
  | nil => intro _; rfl
  | cons rel rest ih =>
    intro h
    rw [runItems_cons_none (h rel (List.mem_cons_self rel rest))]
    exact ih (fun r hr => h r (List.mem_cons_of_mem rel hr))

/-- With caching off, an update step on an unchanged item is a strict no-op. -/
theorem update_step_noop {cfg : SyncConfig} {env : SyncEnv} {source : FS}
    {srcRoot repRoot : String} {st : SyncState} {rel : RelPath}
    (hcache : cfg.use_hash_cache = false)
    (hok : isFileAt source rel = true →
      files_differ_pure cfg.use_md5 env (fsLookup source rel) (fsLookup st.replica rel) =
        Except.ok false) :
    update_step cfg env source srcRoot repRoot st rel = ⟨st, none⟩ := by
  by_cases hfile : isFileAt source rel = true
  · rw [update_step, if_pos hfile,
      files_differ_eq_pure hcache env st.cache source st.replica rel rel srcRoot repRoot,
      hok hfile]
  · rw [update_step, if_neg hfile]

/-- Absence of kind conflicts gives kind compatibility of the replica with
the source. -/
theorem conflictfree_kindcompat {source R : FS} (hwfs : FSWf source)
    (hconf : ConflictFree source R) : KindCompat R source := by
  intro q e e' hq hq'
  by_cases hqne : q = []
  · subst hqne
    rw [lookupEntries_nil_key hwfs.2.1] at hq'
    exact absurd hq' (by simp)
  · rw [fsLookup_ne_root hqne] at hq
    exact (conflictfree_lookup hconf hq' hq).symm

/-- Master specification of one dry-run `synchronize` pass with caching off
and no kind conflicts: nothing is mutated, and the logged events are the
add copies, the removals, and the copies of the differing in-both files. -/
theorem synchronize_dry_spec (cfg : SyncConfig) (env : SyncEnv) (srcRoot repRoot : String)
    (source : FS) (st0 : SyncState)
    (hdryT : cfg.dry_run = true) (hcache : cfg.use_hash_cache = false)
    (hwfs : FSWf source) (hwf0 : FSWf st0.replica)
    (hconf : ConflictFree source st0.replica) :
    synchronize cfg env srcRoot repRoot source st0 =
      ⟨planAdd cfg.ignore_patterns source st0.replica,
       planRemove cfg.ignore_patterns source st0.replica,
       planBoth cfg.ignore_patterns source st0.replica,
       ⟨st0.replica, st0.cache,
        st0.events ++
          (planAdd cfg.ignore_patterns source st0.replica).map
            (copyEventOf source repRoot) ++
          (planRemove cfg.ignore_patterns source st0.replica).map
            (fun p => SyncEvent.removed (osJoin repRoot p)) ++
          ((planBoth cfg.ignore_patterns source st0.replica).filter
            (fun p => isFileAt source p && decide (files_differ_pure cfg.use_md5 env
              (fsLookup source p) (fsLookup st0.replica p) = Except.ok true))).map
            (fun p => SyncEvent.copyFile (osJoin repRoot p)),
        st0.updated ++ (planBoth cfg.ignore_patterns source st0.replica).filter
          (fun p => isFileAt source p && decide (files_differ_pure cfg.use_md5 env
            (fsLookup source p) (fsLookup st0.replica p) = Except.ok true))⟩,
       none⟩ := by
  have hcomp0 := conflictfree_kindcompat hwfs hconf
  have hnd3 : ∀ rel ∈ planBoth cfg.ignore_patterns source st0.replica,
      isFileAt source rel = true → fsLookup st0.replica rel ≠ some EntryData.dir := by
    intro rel hrel hfile hc
    obtain ⟨hs1, _, _⟩ := (mem_planBoth hwfs hwf0).mp hrel
    obtain ⟨c, m, hcm⟩ := isFileAt_iff.mp hfile
    have hrelne : rel ≠ [] := fswf_no_nil hwfs hs1
    rw [fsLookup_ne_root hrelne] at hcm
    exact EntryData.noConfusion ((hcomp0 rel EntryData.dir _ hc hcm).mp rfl)
  rw [synchronize_eq]
  rw [runItems_copy_dry hdryT]
  dsimp only
  rw [runItems_remove_dry hdryT]
  dsimp only
  rw [runItems_update_dry hdryT hcache]
  · dsimp only
    rw [hdryT]
    rw [if_neg (by simp)]
  · exact fun rel hrel hfile => hnd3 rel hrel hfile

/-! ## Amended claims -/

/-- C1 (amended): for a live pass with hash caching disabled, at least one
retry attempt, well-formed trees, and no file/directory kind conflicts
between source and replica, one `synchronize` pass makes the replica scan
snapshot (file set, directory set) equal to the source scan snapshot. -/
theorem c1_convergence_amended (cfg : SyncConfig) (env : SyncEnv)
    (srcRoot repRoot : String) (source : FS) (st0 : SyncState)
    (hdry : cfg.dry_run = false) (hcache : cfg.use_hash_cache = false)
    (hretr : 1 ≤ cfg.max_retries) (hwfs : FSWf source) (hwf0 : FSWf st0.replica)
    (hconf : ConflictFree source st0.replica) :
    (get_all_items cfg.ignore_patterns
        (some (synchronize cfg env srcRoot repRoot source st0).state.replica)).1.toFinset =
      (get_all_items cfg.ignore_patterns (some source)).1.toFinset ∧
    (get_all_items cfg.ignore_patterns
        (some (synchronize cfg env srcRoot repRoot source st0).state.replica)).2.toFinset =
      (get_all_items cfg.ignore_patterns (some source)).2.toFinset := by
  obtain ⟨F, cacheF, E2, U, heq, hfilt2, hsub2, hwfF, hchar, hcoff2⟩ :=
    synchronize_spec cfg env srcRoot repRoot source st0 hdry hretr hwfs hwf0 hconf
  have hrep : (synchronize cfg env srcRoot repRoot source st0).state.replica = F := by
    rw [heq]
    dsimp only
    rw [hcache]
    rw [if_neg (by simp)]
  rw [hrep]
  constructor
  · ext p
    simp only [List.mem_toFinset]
    rw [mem_scan_files hwfF, mem_scan_files hwfs]
    constructor
    · rintro ⟨⟨c, m, hl⟩, hs⟩
      have hpne : p ≠ [] := fswf_no_nil hwfF (by rw [hl]; rfl)
      obtain ⟨ha, hb, hc2⟩ := hchar p hs hpne
      have hlF : fsLookup F p = some (EntryData.file c m) := by
        rw [fsLookup_ne_root hpne]
        exact hl
      refine ⟨?_, hs⟩
      cases hsl : lookupEntries source.entries p with
      | none =>
        rw [hc2 hsl] at hlF
        exact Option.noConfusion hlF
      | some e =>
        cases e with
        | dir =>
          rw [ha hsl] at hlF
          injection hlF with hlF
          exact EntryData.noConfusion hlF
        | file c' m' => exact ⟨c', m', rfl⟩
    · rintro ⟨⟨c, m, hl⟩, hs⟩
      have hpne : p ≠ [] := fswf_no_nil hwfs (by rw [hl]; rfl)
      obtain ⟨ha, hb, hc2⟩ := hchar p hs hpne
      obtain ⟨c', m', hF⟩ := hb c m hl
      refine ⟨⟨c', m', ?_⟩, hs⟩
      rw [← fsLookup_ne_root hpne]
      exact hF
  · ext p
    simp only [List.mem_toFinset]
    rw [mem_scan_dirs hwfF, mem_scan_dirs hwfs]
    constructor
    · rintro ⟨hl, hs⟩
      have hpne : p ≠ [] := fswf_no_nil hwfF (by rw [hl]; rfl)
      obtain ⟨ha, hb, hc2⟩ := hchar p hs hpne
      have hlF : fsLookup F p = some EntryData.dir := by
        rw [fsLookup_ne_root hpne]
        exact hl
      refine ⟨?_, hs⟩
      cases hsl : lookupEntries source.entries p with
      | none =>
        rw [hc2 hsl] at hlF
        exact Option.noConfusion hlF
      | some e =>
        cases e with
        | dir => rfl
        | file c' m' =>
          obtain ⟨c'', m'', hF⟩ := hb c' m' hsl
          rw [hF] at hlF
          injection hlF with hlF
          exact EntryData.noConfusion hlF
    · rintro ⟨hl, hs⟩
      have hpne : p ≠ [] := fswf_no_nil hwfs (by rw [hl]; rfl)
      obtain ⟨ha, hb2, hc2⟩ := hchar p hs hpne
      refine ⟨?_, hs⟩
      rw [← fsLookup_ne_root hpne]
      exact ha hl

/-- Witness for C1 (amended) at a one-file source and an empty replica. -/
theorem c1_convergence_amended_witness :
    (get_all_items [] (some (synchronize ⟨false, false, [], false, 1⟩
        ⟨fun _ => "", fun _ => [], 0⟩ "/src" "/rep"
        (⟨[(["a"], EntryData.file [0] 0)]⟩ : FS)
        ⟨⟨[]⟩, [], [], []⟩).state.replica)).1.toFinset =
      (get_all_items [] (some (⟨[(["a"], EntryData.file [0] 0)]⟩ : FS))).1.toFinset ∧
    (get_all_items [] (some (synchronize ⟨false, false, [], false, 1⟩
        ⟨fun _ => "", fun _ => [], 0⟩ "/src" "/rep"
        (⟨[(["a"], EntryData.file [0] 0)]⟩ : FS)
        ⟨⟨[]⟩, [], [], []⟩).state.replica)).2.toFinset =
      (get_all_items [] (some (⟨[(["a"], EntryData.file [0] 0)]⟩ : FS))).2.toFinset :=
  c1_convergence_amended ⟨false, false, [], false, 1⟩ ⟨fun _ => "", fun _ => [], 0⟩
    "/src" "/rep" ⟨[(["a"], EntryData.file [0] 0)]⟩ ⟨⟨[]⟩, [], [], []⟩
    rfl rfl (by decide) (by decide) (by decide) (by decide)

/-- C4 (amended): the events of a live conflict-free pass decompose as the
`to_add` copy events, then the removal events (with retry noise), then the
update copy events — adds precede removes, which precede update copies (the
spec's claimed order, update copies before removes, is not what the code
does). -/
theorem c4_order_amended (cfg : SyncConfig) (env : SyncEnv) (srcRoot repRoot : String)
    (source : FS) (st0 : SyncState)
    (hdry : cfg.dry_run = false) (hretr : 1 ≤ cfg.max_retries)
    (hwfs : FSWf source) (hwf0 : FSWf st0.replica)
    (hconf : ConflictFree source st0.replica) :
    ∃ E1 E2 E3,
      (synchronize cfg env srcRoot repRoot source st0).state.events =
        st0.events ++ E1 ++ E2 ++ E3 ∧
      E1 = (planAdd cfg.ignore_patterns source st0.replica).map
        (copyEventOf source repRoot) ∧
      E2.filter isInfoEvent =
        (planRemove cfg.ignore_patterns source st0.replica).map
          (fun p => SyncEvent.removed (osJoin repRoot p)) ∧
      (∀ e ∈ E3, isCopyEvent e = true) := by
  obtain ⟨F, cacheF, E2, U, heq, hfilt, hsub, hwfF, hchar, hcoff⟩ :=
    synchronize_spec cfg env srcRoot repRoot source st0 hdry hretr hwfs hwf0 hconf
  refine ⟨(planAdd cfg.ignore_patterns source st0.replica).map (copyEventOf source repRoot),
    E2, U.map (fun p => SyncEvent.copyFile (osJoin repRoot p)), ?_, rfl, hfilt, ?_⟩
  · rw [heq]
  · intro e he
    obtain ⟨p, hm, rfl⟩ := List.mem_map.mp he
    rfl

/-- Witness for C4 (amended) at a one-file source and an empty replica. -/
theorem c4_order_amended_witness :
    ∃ E1 E2 E3,
      (synchronize ⟨false, false, [], false, 1⟩ ⟨fun _ => "", fun _ => [], 0⟩ "/src" "/rep"
          (⟨[(["a"], EntryData.file [0] 0)]⟩ : FS) ⟨⟨[]⟩, [], [], []⟩).state.events =
        [] ++ E1 ++ E2 ++ E3 ∧
      E1 = (planAdd [] (⟨[(["a"], EntryData.file [0] 0)]⟩ : FS) ⟨[]⟩).map
        (copyEventOf ⟨[(["a"], EntryData.file [0] 0)]⟩ "/rep") ∧
      E2.filter isInfoEvent =
        (planRemove [] (⟨[(["a"], EntryData.file [0] 0)]⟩ : FS) ⟨[]⟩).map
          (fun p => SyncEvent.removed (osJoin "/rep" p)) ∧
      (∀ e ∈ E3, isCopyEvent e = true) :=
  c4_order_amended ⟨false, false, [], false, 1⟩ ⟨fun _ => "", fun _ => [], 0⟩
    "/src" "/rep" ⟨[(["a"], EntryData.file [0] 0)]⟩ ⟨⟨[]⟩, [], [], []⟩
    rfl (by decide) (by decide) (by decide) (by decide)

/-- C10 (amended): in a live conflict-free pass with caching enabled, when
the replica holds the (not ignored) cache file `hash_cache.json` and the
source does not, the cache file is planned for removal, a removal event for
it is logged, and the cache flush rewrites it at the end of the pass, so it
exists again (with the serialized cache bytes and the current time) after
the pass. -/
theorem c10_cache_file_amended (cfg : SyncConfig) (env : SyncEnv)
    (srcRoot repRoot : String) (source : FS) (st0 : SyncState)
    (hdry : cfg.dry_run = false) (hcacheOn : cfg.use_hash_cache = true)
    (hretr : 1 ≤ cfg.max_retries) (hwfs : FSWf source) (hwf0 : FSWf st0.replica)
    (hconf : ConflictFree source st0.replica)
    (hrep : (lookupEntries st0.replica.entries hash_cache_rel).isSome = true)
    (hscan : scanOk cfg.ignore_patterns hash_cache_rel = true)
    (hsrc : lookupEntries source.entries hash_cache_rel = none) :
    hash_cache_rel ∈ (synchronize cfg env srcRoot repRoot source st0).to_remove ∧
    SyncEvent.removed (osJoin repRoot hash_cache_rel) ∈
      (synchronize cfg env srcRoot repRoot source st0).state.events ∧
    (∃ bs, fsLookup (synchronize cfg env srcRoot repRoot source st0).state.replica
      hash_cache_rel = some (EntryData.file bs env.now)) := by
  obtain ⟨F, cacheF, E2, U, heq, hfilt, hsub, hwfF, hchar, hcoff⟩ :=
    synchronize_spec cfg env srcRoot repRoot source st0 hdry hretr hwfs hwf0 hconf
  have hmem : hash_cache_rel ∈ planRemove cfg.ignore_patterns source st0.replica :=
    (mem_planRemove hwfs hwf0).mpr ⟨hrep, hscan, hsrc⟩
  refine ⟨?_, ?_, ?_⟩
  · rw [heq]
    exact hmem
  · rw [heq]
    dsimp only
    have h1 : SyncEvent.removed (osJoin repRoot hash_cache_rel) ∈ E2 := by
      have h2 : SyncEvent.removed (osJoin repRoot hash_cache_rel) ∈
          E2.filter isInfoEvent := by
        rw [hfilt]
        exact List.mem_map_of_mem _ hmem
      exact List.mem_of_mem_filter h2
    exact List.mem_append_left _ (List.mem_append_right _ h1)
  · rw [heq]
    dsimp only
    rw [if_pos hcacheOn]
    refine ⟨env.cacheBytes cacheF, ?_⟩
    rw [fsSet_lookup F (EntryData.file (env.cacheBytes cacheF) env.now)
      (by simp [hash_cache_rel]) hash_cache_rel]
    rw [if_pos rfl]

/-- Witness for C10 (amended): empty source, replica holding only the cache
file, caching on. -/
theorem c10_cache_file_amended_witness :
    hash_cache_rel ∈ (synchronize ⟨false, true, [], false, 1⟩
      ⟨fun _ => "", fun _ => [], 0⟩ "/src" "/rep" (⟨[]⟩ : FS)
      ⟨⟨[(["hash_cache.json"], EntryData.file [1] 0)]⟩, [], [], []⟩).to_remove ∧
    SyncEvent.removed (osJoin "/rep" hash_cache_rel) ∈
      (synchronize ⟨false, true, [], false, 1⟩ ⟨fun _ => "", fun _ => [], 0⟩ "/src" "/rep"
        (⟨[]⟩ : FS)
        ⟨⟨[(["hash_cache.json"], EntryData.file [1] 0)]⟩, [], [], []⟩).state.events ∧
    (∃ bs, fsLookup (synchronize ⟨false, true, [], false, 1⟩
        ⟨fun _ => "", fun _ => [], 0⟩ "/src" "/rep" (⟨[]⟩ : FS)
        ⟨⟨[(["hash_cache.json"], EntryData.file [1] 0)]⟩, [], [], []⟩).state.replica
      hash_cache_rel = some (EntryData.file bs 0)) :=
  c10_cache_file_amended ⟨false, true, [], false, 1⟩ ⟨fun _ => "", fun _ => [], 0⟩
    "/src" "/rep" ⟨[]⟩ ⟨⟨[(["hash_cache.json"], EntryData.file [1] 0)]⟩, [], [], []⟩
    rfl rfl (by decide) (by decide) (by decide) (by decide) (by decide) (by decide) rfl

/-- C2 (amended): for a live conflict-free pass with hash caching disabled,
running `synchronize` a second time with an unchanged source plans nothing —
`to_add` and `to_remove` are empty — and performs no mutation at all: the
state (replica, cache, events, updated items) after the second run equals
the state after the first.  (With caching enabled this fails: the flushed
cache file is planned for removal on the second run, see the
counterexample.) -/
theorem c2_idempotence_amended (cfg : SyncConfig) (env : SyncEnv)
    (srcRoot repRoot : String) (source : FS) (st0 : SyncState)
    (hdry : cfg.dry_run = false) (hcache : cfg.use_hash_cache = false)
    (hretr : 1 ≤ cfg.max_retries) (hwfs : FSWf source) (hwf0 : FSWf st0.replica)
    (hconf : ConflictFree source st0.replica) :
    (synchronize cfg env srcRoot repRoot source
        (synchronize cfg env srcRoot repRoot source st0).state).to_add = [] ∧
    (synchronize cfg env srcRoot repRoot source
        (synchronize cfg env srcRoot repRoot source st0).state).to_remove = [] ∧
    (synchronize cfg env srcRoot repRoot source
        (synchronize cfg env srcRoot repRoot source st0).state).state =
      (synchronize cfg env srcRoot repRoot source st0).state := by
  obtain ⟨F, cacheF, E2, U, heq, hfilt, hsub, hwfF, hchar, hcoff⟩ :=
    synchronize_spec cfg env srcRoot repRoot source st0 hdry hretr hwfs hwf0 hconf
  obtain ⟨hcF, hUform, hpost⟩ := hcoff hcache
  have hrep1 : (synchronize cfg env srcRoot repRoot source st0).state.replica = F := by
    rw [heq]
    dsimp only
    rw [hcache, if_neg (by simp)]
  have hFmem : ∀ p ∈ scanAll cfg.ignore_patterns (some source),
      p ∈ scanAll cfg.ignore_patterns (some F) := by
    intro p hp
    obtain ⟨hps, hpsc⟩ := (mem_scanAll hwfs).mp hp
    have hpne : p ≠ [] := fswf_no_nil hwfs hps
    obtain ⟨ha, hb, hc2⟩ := hchar p hpsc hpne
    refine (mem_scanAll hwfF).mpr ⟨?_, hpsc⟩
    cases hsl : lookupEntries source.entries p with
    | none =>
      rw [hsl] at hps
      exact Bool.noConfusion hps
    | some e =>
      cases e with
      | dir =>
        have hv := ha hsl
        rw [fsLookup_ne_root hpne] at hv
        rw [hv]
        rfl
      | file c m =>
        obtain ⟨c', m', hF⟩ := hb c m hsl
        rw [fsLookup_ne_root hpne] at hF
        rw [hF]
        rfl
  have hFmem' : ∀ p ∈ scanAll cfg.ignore_patterns (some F),
      p ∈ scanAll cfg.ignore_patterns (some source) := by
    intro p hp
    obtain ⟨hps, hpsc⟩ := (mem_scanAll hwfF).mp hp
    have hpne : p ≠ [] := fswf_no_nil hwfF hps
    obtain ⟨ha, hb, hc2⟩ := hchar p hpsc hpne
    refine (mem_scanAll hwfs).mpr ⟨?_, hpsc⟩
    cases hsl : lookupEntries source.entries p with
    | none =>
      have hv := hc2 hsl
      rw [fsLookup_ne_root hpne] at hv
      rw [hv] at hps
      exact Bool.noConfusion hps
    | some e => rfl
  have hA2 : planAdd cfg.ignore_patterns source F = [] := by
    rw [planAdd]
    refine List.filter_eq_nil_iff.mpr ?_
    intro p hp
    rw [relpath_contains_iff.mpr (hFmem p hp)]
    simp
  have hD2 : planRemove cfg.ignore_patterns source F = [] := by
    rw [planRemove]
    refine List.filter_eq_nil_iff.mpr ?_
    intro p hp
    rw [relpath_contains_iff.mpr (hFmem' p hp)]
    simp
  have hB2 : planBoth cfg.ignore_patterns source F =
      scanAll cfg.ignore_patterns (some source) := by
    rw [planBoth]
    refine List.filter_eq_self.mpr ?_
    intro p hp
    exact relpath_contains_iff.mpr (hFmem p hp)
  have hnoopstep : ∀ p ∈ scanAll cfg.ignore_patterns (some source),
      update_step cfg env source srcRoot repRoot
        (synchronize cfg env srcRoot repRoot source st0).state p =
        ⟨(synchronize cfg env srcRoot repRoot source st0).state, none⟩ := by
    intro p hp
    refine update_step_noop hcache ?_
    intro hfile
    obtain ⟨hps, hpsc⟩ := (mem_scanAll hwfs).mp hp
    have hpne : p ≠ [] := fswf_no_nil hwfs hps
    obtain ⟨c, m, hcm⟩ := isFileAt_iff.mp hfile
    have hcm' : lookupEntries source.entries p = some (EntryData.file c m) := by
      rw [← fsLookup_ne_root hpne]
      exact hcm
    rcases hpost p c m hcm' hpsc with h | h
    · rw [hrep1, hcm, h]
      exact files_differ_pure_self cfg.use_md5 env c m
    · rw [hrep1]
      exact h
  have h2run : synchronize cfg env srcRoot repRoot source
      (synchronize cfg env srcRoot repRoot source st0).state =
      ⟨[], [], scanAll cfg.ignore_patterns (some source),
        (synchronize cfg env srcRoot repRoot source st0).state, none⟩ := by
    rw [synchronize_eq]
    rw [show planAdd cfg.ignore_patterns source
        (synchronize cfg env srcRoot repRoot source st0).state.replica = [] from by
      rw [hrep1]; exact hA2]
    rw [show planRemove cfg.ignore_patterns source
        (synchronize cfg env srcRoot repRoot source st0).state.replica = [] from by
      rw [hrep1]; exact hD2]
    rw [show planBoth cfg.ignore_patterns source
        (synchronize cfg env srcRoot repRoot source st0).state.replica =
        scanAll cfg.ignore_patterns (some source) from by
      rw [hrep1]; exact hB2]
    rw [runItems_nil]
    dsimp only
    rw [runItems_nil]
    dsimp only
    rw [runItems_noop (scanAll cfg.ignore_patterns (some source)) hnoopstep]
    dsimp only
    rw [hdry, hcache]
    rw [if_neg (by simp)]
  exact ⟨by rw [h2run], by rw [h2run], by rw [h2run]⟩

/-- Witness for C2 (amended) at a one-file source and an empty replica. -/
theorem c2_idempotence_amended_witness :
    (synchronize ⟨false, false, [], false, 1⟩ ⟨fun _ => "", fun _ => [], 0⟩ "/src" "/rep"
        (⟨[(["a"], EntryData.file [0] 0)]⟩ : FS)
        (synchronize ⟨false, false, [], false, 1⟩ ⟨fun _ => "", fun _ => [], 0⟩
          "/src" "/rep" (⟨[(["a"], EntryData.file [0] 0)]⟩ : FS)
          ⟨⟨[]⟩, [], [], []⟩).state).to_add = [] ∧
    (synchronize ⟨false, false, [], false, 1⟩ ⟨fun _ => "", fun _ => [], 0⟩ "/src" "/rep"
        (⟨[(["a"], EntryData.file [0] 0)]⟩ : FS)
        (synchronize ⟨false, false, [], false, 1⟩ ⟨fun _ => "", fun _ => [], 0⟩
          "/src" "/rep" (⟨[(["a"], EntryData.file [0] 0)]⟩ : FS)
          ⟨⟨[]⟩, [], [], []⟩).state).to_remove = [] ∧
    (synchronize ⟨false, false, [], false, 1⟩ ⟨fun _ => "", fun _ => [], 0⟩ "/src" "/rep"
        (⟨[(["a"], EntryData.file [0] 0)]⟩ : FS)
        (synchronize ⟨false, false, [], false, 1⟩ ⟨fun _ => "", fun _ => [], 0⟩
          "/src" "/rep" (⟨[(["a"], EntryData.file [0] 0)]⟩ : FS)
          ⟨⟨[]⟩, [], [], []⟩).state).state =
      (synchronize ⟨false, false, [], false, 1⟩ ⟨fun _ => "", fun _ => [], 0⟩
        "/src" "/rep" (⟨[(["a"], EntryData.file [0] 0)]⟩ : FS)
        ⟨⟨[]⟩, [], [], []⟩).state :=
  c2_idempotence_amended ⟨false, false, [], false, 1⟩ ⟨fun _ => "", fun _ => [], 0⟩
    "/src" "/rep" ⟨[(["a"], EntryData.file [0] 0)]⟩ ⟨⟨[]⟩, [], [], []⟩
    rfl rfl (by decide) (by decide) (by decide) (by decide)

/-- In dry-run mode `update_step` never touches the replica, whatever the
caching mode and whatever `files_differ` returns (including a raised
exception). -/
theorem update_step_dry_replica {cfg : SyncConfig} (hdryT : cfg.dry_run = true)
    (env : SyncEnv) (source : FS) (srcRoot repRoot : String) (st : SyncState)
    (rel : RelPath) :
    (update_step cfg env source srcRoot repRoot st rel).state.replica = st.replica := by
  rw [update_step]
  by_cases hfile : isFileAt source rel = true
  · rw [if_pos hfile]
    rcases hfd : files_differ cfg env st.cache source st.replica rel rel srcRoot repRoot
      with ⟨res, cache'⟩
    cases res with
    | error e => rfl
    | ok b =>
      cases b with
      | true =>
        dsimp only
        rw [copy_item_dry hdryT]
      | false => rfl
  · rw [if_neg hfile]

/-- A loop whose every step preserves the replica preserves the replica,
whether or not a step aborts the loop. -/
theorem runItems_replica {f : SyncState → RelPath → SyncOutcome}
    (hf : ∀ st rel, (f st rel).state.replica = st.replica) :
    ∀ (items : List RelPath) (st : SyncState),
      (runItems f st items).state.replica = st.replica := by
  intro items
  induction items with
  | nil =>
    intro st
    rfl
  | cons rel rest ih =>
    intro st
    rw [runItems]
    cases hexc : (f st rel).exc with
    | some e => exact hf st rel
    | none => rw [ih (f st rel).state, hf st rel]

/-- Dry-run purity of a whole pass, unconditionally: whatever the caching
mode, the ignore patterns, the trees or a mid-pass exception, a dry-run
`synchronize` leaves the replica tree untouched (in particular it does not
write the cache file, since the flush requires `not dry_run`). -/
theorem synchronize_dry_replica (cfg : SyncConfig) (env : SyncEnv)
    (srcRoot repRoot : String) (source : FS) (st0 : SyncState)
    (hdryT : cfg.dry_run = true) :
    (synchronize cfg env srcRoot repRoot source st0).state.replica = st0.replica := by
  rw [synchronize_eq]
  rw [runItems_copy_dry hdryT]
  dsimp only
  rw [runItems_remove_dry hdryT]
  dsimp only
  rw [hdryT]
  rw [if_neg (by simp)]
  rw [runItems_replica (fun st rel => update_step_dry_replica hdryT env source srcRoot
    repRoot st rel)]

/-- C9 (amended): a dry-run pass always leaves the replica's on-disk state
entirely unchanged — no directory creation, copy, removal or cache-file
write, whatever the caching mode, ignore patterns or trees; and for
configurations where the live pass runs to completion (conflict-free
well-formed trees, caching off, at least one retry attempt, empty initial
event log) the dry-run pass emits exactly the copy/remove events of the
live pass (the live pass additionally logs retry noise, which dry runs
cannot produce since they attempt no operation). -/
theorem c9_dry_run_amended (cfg : SyncConfig) (env : SyncEnv) (srcRoot repRoot : String)
    (source : FS) (st0 : SyncState) (hdryT : cfg.dry_run = true) :
    (synchronize cfg env srcRoot repRoot source st0).state.replica = st0.replica ∧
    (cfg.use_hash_cache = false → 1 ≤ cfg.max_retries → FSWf source → FSWf st0.replica →
      ConflictFree source st0.replica → st0.events = [] →
      (synchronize cfg env srcRoot repRoot source st0).state.events =
        ((synchronize { cfg with dry_run := false } env srcRoot repRoot source
          st0).state.events).filter isInfoEvent) := by
  constructor
  · exact synchronize_dry_replica cfg env srcRoot repRoot source st0 hdryT
  · intro hcache hretr hwfs hwf0 hconf hev0
    have hdry' : ({ cfg with dry_run := false } : SyncConfig).dry_run = false := rfl
    have hretr' : 1 ≤ ({ cfg with dry_run := false } : SyncConfig).max_retries := hretr
    have hcache' : ({ cfg with dry_run := false } : SyncConfig).use_hash_cache = false :=
      hcache
    have hdspec := synchronize_dry_spec cfg env srcRoot repRoot source st0 hdryT hcache
      hwfs hwf0 hconf
    obtain ⟨F, cacheF, E2, U, heq, hfilt, hsub, hwfF, hchar, hcoff⟩ :=
      synchronize_spec { cfg with dry_run := false } env srcRoot repRoot source st0
        hdry' hretr' hwfs hwf0 hconf
    obtain ⟨hcF, hUform, hpost⟩ := hcoff hcache'
    rw [hdspec, heq]
    dsimp only
    rw [hev0]
    simp only [List.nil_append]
    rw [List.filter_append, List.filter_append]
    rw [hfilt]
    rw [show ((planAdd ({ cfg with dry_run := false } : SyncConfig).ignore_patterns source
        st0.replica).map (copyEventOf source repRoot)).filter isInfoEvent =
        (planAdd ({ cfg with dry_run := false } : SyncConfig).ignore_patterns source
          st0.replica).map (copyEventOf source repRoot) from
      List.filter_eq_self.mpr (fun e he => by
        obtain ⟨p, hm, hpe⟩ := List.mem_map.mp he
        rw [← hpe]
        exact copyEventOf_info source repRoot p)]
    rw [show (U.map (fun p => SyncEvent.copyFile (osJoin repRoot p))).filter isInfoEvent =
        U.map (fun p => SyncEvent.copyFile (osJoin repRoot p)) from
      List.filter_eq_self.mpr (fun e he => by
        obtain ⟨p, hm, hpe⟩ := List.mem_map.mp he
        rw [← hpe]
        rfl)]
    rw [hUform]

/-- Witness for C9 (amended) at a one-file source and an empty replica,
with the dry-run configuration. -/
theorem c9_dry_run_amended_witness :
    (synchronize ⟨false, false, [], true, 1⟩ ⟨fun _ => "", fun _ => [], 0⟩ "/src" "/rep"
        (⟨[(["a"], EntryData.file [0] 0)]⟩ : FS) ⟨⟨[]⟩, [], [], []⟩).state.replica =
      (⟨[]⟩ : FS) ∧
    ((⟨false, false, [], true, 1⟩ : SyncConfig).use_hash_cache = false →
      1 ≤ (⟨false, false, [], true, 1⟩ : SyncConfig).max_retries →
      FSWf (⟨[(["a"], EntryData.file [0] 0)]⟩ : FS) →
      FSWf (⟨[]⟩ : FS) →
      ConflictFree ⟨[(["a"], EntryData.file [0] 0)]⟩ ⟨[]⟩ →
      ([] : List SyncEvent) = [] →
      (synchronize ⟨false, false, [], true, 1⟩ ⟨fun _ => "", fun _ => [], 0⟩ "/src" "/rep"
          (⟨[(["a"], EntryData.file [0] 0)]⟩ : FS) ⟨⟨[]⟩, [], [], []⟩).state.events =
        ((synchronize ⟨false, false, [], false, 1⟩ ⟨fun _ => "", fun _ => [], 0⟩
            "/src" "/rep" (⟨[(["a"], EntryData.file [0] 0)]⟩ : FS)
            ⟨⟨[]⟩, [], [], []⟩).state.events).filter isInfoEvent) :=
  c9_dry_run_amended ⟨false, false, [], true, 1⟩ ⟨fun _ => "", fun _ => [], 0⟩
    "/src" "/rep" ⟨[(["a"], EntryData.file [0] 0)]⟩ ⟨⟨[]⟩, [], [], []⟩ rfl
